import Mathlib

/-!
# Basidian backend: the path-addressed node store

A shallow embedding of `backend/handlers/filesystem.go` and
`backend/handlers/daily_files.go`.

* A Go string is modelled by the list of its Unicode code points (`Str`).
  Every string that reaches the store is decoded from a JSON body or built
  from such strings, hence is valid UTF-8; on valid UTF-8 the byte-wise Go
  operations `==`, `+`, `strings.Replace` coincide with the same operations
  on code points.  `len` and slicing are byte operations and go through the
  UTF-8 encoding (`utf8Bytes`).
* The table `fs_nodes` is the list of its rows in rowid (insertion) order.
  `id` is the primary key and `idx_fs_nodes_path` is a unique index on `path`
  (`database/db.go`), so an INSERT or UPDATE that would duplicate either fails.
* A statement with `LIKE` fails when its pattern is longer than SQLite's
  limit of 50000 bytes (`likeTooComplex`).
* `MoveNode` issues the UPDATEs of its cascade through the connection pool
  while the cursor of its SELECT is still open on another connection.  What
  SQLite does with such a write depends on the journal mode of the database
  file (`JournalMode`): on the rollback-journal file that `database.Init`
  creates it is refused, on a write-ahead-log file it is applied.
* `database.GenerateID()` and `time.Now().Format(time.RFC3339)` are inputs of
  the handlers (`id`, `now`).
* A handler maps the store and its request to a response and a new store.
-/

namespace Basidian

/-- A Go string: the code points of a valid UTF-8 string. -/
abbrev Str := List Char

/-- A row of table `fs_nodes` (`database/db.go`, `runMigrations`). -/
structure Row where
  id : Str
  type : Str
  name : Str
  path : Str
  parent_path : Str
  content : Str
  is_daily : Bool
  sort_order : Int
  created : Str
  updated : Str
  deriving DecidableEq, Repr

/-- The table `fs_nodes`, rows in rowid order. -/
abbrev Store := List Row

/-- Go struct `FsNode`. -/
structure FsNode where
  id : Str
  type : Str
  name : Str
  path : Str
  parent_path : Str
  content : Str
  is_daily : Bool
  sort_order : Int
  created_at : Option Str
  updated_at : Option Str
  deriving DecidableEq, Repr

/-- Go struct `FsNodeRequest`. -/
structure FsNodeRequest where
  type : Str
  name : Str
  parent_path : Str
  content : Str
  is_daily : Bool
  sort_order : Int
  deriving DecidableEq, Repr

/-- Go struct `MoveRequest`. -/
structure MoveRequest where
  new_parent_path : Str
  new_name : Str
  deriving DecidableEq, Repr

/-- What a handler writes with `c.JSON(status, body)` or `c.Status(status)`;
error bodies carry no node. -/
structure Response (α : Type) where
  status : Nat
  body : Option α
  deriving DecidableEq, Repr

/-- `buildPath` of `filesystem.go`. -/
def buildPath (parentPath name : Str) : Str :=
  if parentPath = "/".toList then
    "/".toList ++ name
  else
    parentPath ++ "/".toList ++ name

/-- `scanNode` of `filesystem.go`: a row read into an `FsNode`; an empty
timestamp column leaves the pointer nil. -/
def scanNode (r : Row) : FsNode :=
  { id := r.id, type := r.type, name := r.name, path := r.path,
    parent_path := r.parent_path, content := r.content,
    is_daily := r.is_daily, sort_order := r.sort_order,
    created_at := if r.created = [] then none else some r.created,
    updated_at := if r.updated = [] then none else some r.updated }

/-! ## Go strings as bytes -/

/-- The UTF-8 encoding of a code point, bytes as naturals below 256. -/
def utf8Char (c : Char) : List Nat :=
  let v := c.toNat
  if v < 128 then [v]
  else if v < 2048 then [192 + v / 64, 128 + v % 64]
  else if v < 65536 then [224 + v / 4096, 128 + v / 64 % 64, 128 + v % 64]
  else [240 + v / 262144, 128 + v / 4096 % 64, 128 + v / 64 % 64, 128 + v % 64]

/-- The bytes of a Go string. -/
def utf8Bytes (s : Str) : List Nat :=
  s.flatMap utf8Char

/-- Go `len(s)`. -/
def goLen (s : Str) : Nat :=
  (utf8Bytes s).length

/-- Go `s[lo:hi]` on the bytes of a string, for `lo ≤ hi ≤ len(s)`. -/
def goSlice (b : List Nat) (lo hi : Nat) : List Nat :=
  (b.drop lo).take (hi - lo)

/-- Go `a < b` on strings: byte-wise lexicographic order. -/
def bytesLt : List Nat → List Nat → Bool
  | _, [] => false
  | [], _ :: _ => true
  | a :: as, b :: bs => decide (a < b) || (decide (a = b) && bytesLt as bs)

/-! ## SQL statements -/

/-- ASCII lower-casing, as SQLite's `LIKE` folds case (`A`..`Z` only). -/
def sqliteLower (c : Char) : Char :=
  if 65 ≤ c.toNat ∧ c.toNat ≤ 90 then Char.ofNat (c.toNat + 32) else c

/-- SQLite's default `LIKE` (no ESCAPE clause), as its documentation states
it: `%` matches any run of characters, `_` matches exactly one character, any
other character matches itself up to ASCII case.  First argument is the
pattern.  The limit on the length of a pattern is `likeTooComplex`; NUL
characters inside a string are outside the model. -/
def sqlLike : Str → Str → Bool
  | [], s => s.isEmpty
  | p :: ps, s =>
    if p = '%' then
      s.tails.any (fun t => sqlLike ps t)
    else
      match s with
      | [] => false
      | c :: cs => (p = '_' || sqliteLower p = sqliteLower c) && sqlLike ps cs

/-- SQLite refuses to evaluate `LIKE` with a pattern of more than
`SQLITE_MAX_LIKE_PATTERN_LENGTH` = 50000 bytes ("LIKE or GLOB pattern too
complex"). -/
def likeTooComplex (pattern : Str) : Bool :=
  decide (50000 < goLen pattern)

/-- The rows whose path matches a pattern. -/
def likeRows (db : Store) (pattern : Str) : List Row :=
  db.filter (fun r => sqlLike pattern r.path)

/-- The journal mode of the database file.  `rollback` is SQLite's default
(`DELETE`) and what `database.Init` creates: `sql.Open` with the bare path and
no pragma.  `wal` is a file that was switched to write-ahead logging outside
this program. -/
inductive JournalMode where
  | rollback
  | wal
  deriving DecidableEq, Repr

/-- A write issued with `database.DB.Exec` while a cursor of `database.DB.Query`
is open.  The cursor keeps its connection, so the write runs on another one.
On a rollback-journal file it cannot commit while the reader holds its shared
lock and returns SQLITE_BUSY (no busy timeout is set): `none`.  On a
write-ahead-log file it runs as usual. -/
def execWhileReading (m : JournalMode) (stmt : Option Store) : Option Store :=
  match m with
  | JournalMode.rollback => none
  | JournalMode.wal => stmt

/-- `SELECT ... FROM fs_nodes WHERE path = ?` read with `QueryRow`. -/
def selectByPath (db : Store) (p : Str) : Option Row :=
  db.find? (fun r => r.path = p)

/-- `SELECT ... FROM fs_nodes WHERE id = ?` read with `QueryRow`. -/
def selectById (db : Store) (id : Str) : Option Row :=
  db.find? (fun r => r.id = id)

/-- `SELECT 1 FROM fs_nodes WHERE path = ? AND type = 'folder'`. -/
def selectFolder (db : Store) (p : Str) : Option Row :=
  db.find? (fun r => r.path = p ∧ r.type = "folder".toList)

/-- `INSERT INTO fs_nodes ...`: fails on a primary-key or unique-path
violation, else appends the row. -/
def insertRow (db : Store) (r : Row) : Option Store :=
  if db.any (fun o => o.id = r.id) || db.any (fun o => o.path = r.path) then none
  else some (db ++ [r])

/-- `UPDATE fs_nodes SET ... WHERE id = ?` for a statement that does not
assign `path`: no constraint can fail. -/
def updateKeepPath (db : Store) (id : Str) (f : Row → Row) : Store :=
  db.map (fun r => if r.id = id then f r else r)

/-- `UPDATE fs_nodes SET ..., path = ?, ... WHERE id = ?`: fails, changing
nothing, when another row already holds the new path. -/
def updateSetPath (db : Store) (id : Str) (f : Row → Row) : Option Store :=
  if db.any (fun r => r.id = id && db.any (fun o => o.id ≠ id && o.path = (f r).path)) then none
  else some (db.map (fun r => if r.id = id then f r else r))

/-! ## Handlers of `filesystem.go` -/

/-- `GetNode`: the node at a path. -/
def GetNode (db : Store) (nodePath : Str) : Response FsNode :=
  if nodePath = [] then ⟨400, none⟩
  else
    match selectByPath db nodePath with
    | none => ⟨404, none⟩
    | some r => ⟨200, some (scanNode r)⟩

/-- `GetNodeById`: the node with an id. -/
def GetNodeById (db : Store) (id : Str) : Response FsNode :=
  match selectById db id with
  | none => ⟨404, none⟩
  | some r => ⟨200, some (scanNode r)⟩

/-- `CreateNode`: `id` is the value of `database.GenerateID()`, `now` the
formatted clock. -/
def CreateNode (db : Store) (req : FsNodeRequest) (id now : Str) :
    Response FsNode × Store :=
  if req.type ≠ "folder".toList ∧ req.type ≠ "file".toList then (⟨400, none⟩, db)
  else if req.name = [] then (⟨400, none⟩, db)
  else
    let parentPath := if req.parent_path = [] then "/".toList else req.parent_path
    if parentPath ≠ "/".toList ∧ (selectFolder db parentPath).isNone then (⟨400, none⟩, db)
    else
      let nodePath := buildPath parentPath req.name
      if (selectByPath db nodePath).isSome then (⟨409, none⟩, db)
      else
        match insertRow db
            { id := id, type := req.type, name := req.name, path := nodePath,
              parent_path := parentPath, content := req.content,
              is_daily := req.is_daily, sort_order := req.sort_order,
              created := now, updated := now } with
        | none => (⟨500, none⟩, db)
        | some db1 =>
          (⟨201, some
            { id := id, type := req.type, name := req.name, path := nodePath,
              parent_path := parentPath, content := req.content,
              is_daily := req.is_daily, sort_order := req.sort_order,
              created_at := some now, updated_at := some now }⟩, db1)

/-- `UpdateNode`. -/
def UpdateNode (db : Store) (id : Str) (req : FsNodeRequest) (now : Str) :
    Response FsNode × Store :=
  match selectById db id with
  | none => (⟨404, none⟩, db)
  | some cur =>
    let newName := if req.name ≠ [] then req.name else cur.name
    let newContent :=
      if req.content ≠ [] ∨ cur.type = "file".toList then req.content else cur.content
    let db1 := updateKeepPath db id (fun r =>
      { r with name := newName, content := newContent,
               sort_order := req.sort_order, updated := now })
    (⟨200, (selectById db1 id).map scanNode⟩, db1)

/-- `DELETE FROM fs_nodes WHERE path LIKE ?`: fails, deleting nothing, when
the pattern is too long and there is a row to evaluate it on. -/
def deleteLike (db : Store) (pattern : Str) : Option Store :=
  if likeTooComplex pattern && !db.isEmpty then none
  else some (db.filter (fun r => !sqlLike pattern r.path))

/-- `DELETE FROM fs_nodes WHERE id = ?`. -/
def deleteById (db : Store) (id : Str) : Store :=
  db.filter (fun r => !decide (r.id = id))

/-- `DeleteNode`: a failure of the cascade DELETE is logged and the handler
goes on. -/
def DeleteNode (db : Store) (id : Str) : Response FsNode × Store :=
  match selectById db id with
  | none => (⟨404, none⟩, db)
  | some cur =>
    let db1 :=
      if cur.type = "folder".toList then
        match deleteLike db (cur.path ++ "/%".toList) with
        | none => db
        | some d => d
      else db
    (⟨204, none⟩, deleteById db1 id)

/-- Go `strings.Replace(s, old, new, 1)`: the first occurrence of `old` in `s`
is replaced by `new`; an empty `old` matches at the start. -/
def replaceFirst : Str → Str → Str → Str
  | [], old, new => if old = [] then new else []
  | c :: t, old, new =>
    if old.isPrefixOf (c :: t) then new ++ (c :: t).drop old.length
    else c :: replaceFirst t old new

/-- `SELECT id, path, parent_path FROM fs_nodes WHERE path LIKE ?` issued
with `Query`: `none` is the error of a pattern that is too long (no row is
delivered), else the matching rows in rowid order. -/
def selectLike (db : Store) (pattern : Str) : Option (List Row) :=
  if likeTooComplex pattern && !db.isEmpty then none
  else some (likeRows db pattern)

/-- One turn of the `rows.Next()` loop of `MoveNode`: `child` is the scanned
row.  The UPDATE is issued while the cursor is open (`execWhileReading`) and
its result is discarded, so a refused or failed UPDATE changes nothing. -/
def cascadeStep (m : JournalMode) (oldPath newPath now : Str) (db : Store) (child : Row) :
    Store :=
  let childNewPath := replaceFirst child.path oldPath newPath
  let childNewParent :=
    if child.parent_path = oldPath then newPath
    else replaceFirst child.parent_path oldPath newPath
  match execWhileReading m (updateSetPath db child.id (fun r =>
      { r with path := childNewPath, parent_path := childNewParent, updated := now })) with
  | none => db
  | some db1 => db1

/-- `MoveNode` on a database file of journal mode `m`.  The rows of the
cascade are the result set of the SELECT as of the moment it is issued (after
the UPDATE of the node itself), visited in rowid order; when the SELECT fails
there is no row to visit. -/
def MoveNode (m : JournalMode) (db : Store) (id : Str) (req : MoveRequest) (now : Str) :
    Response FsNode × Store :=
  match selectById db id with
  | none => (⟨404, none⟩, db)
  | some cur =>
    let newName := if req.new_name = [] then cur.name else req.new_name
    let newParentPath :=
      if req.new_parent_path = [] then cur.parent_path else req.new_parent_path
    let newPath := buildPath newParentPath newName
    if newPath ≠ cur.path ∧ (selectByPath db newPath).isSome then (⟨409, none⟩, db)
    else
      match updateSetPath db id (fun r =>
          { r with name := newName, path := newPath,
                   parent_path := newParentPath, updated := now }) with
      | none => (⟨500, none⟩, db)
      | some db1 =>
        let db2 :=
          if cur.type = "folder".toList then
            match selectLike db1 (cur.path ++ "/%".toList) with
            | none => db1
            | some rows => rows.foldl (cascadeStep m cur.path newPath now) db1
          else db1
        (⟨200, (selectById db2 id).map scanNode⟩, db2)

/-! ## `sort.Slice`, `time.Parse` and `Time.Format` -/

/-- Go `sort.Slice(l, less)`: a permutation of `l` in which no element is
`less` than an earlier one.  `sort.Slice` is not stable; this model keeps
elements that are not ordered by `less` in their input order. -/
def sortSlice {α : Type} (less : α → α → Bool) (l : List α) : List α :=
  l.insertionSort (fun a b => less b a = false)

/-- An ASCII decimal digit. -/
def isDigit (c : Char) : Bool :=
  decide (48 ≤ c.toNat) && decide (c.toNat ≤ 57)

/-- A date accepted by `time.Parse`: year, month, day. -/
structure Date where
  year : Nat
  month : Nat
  day : Nat
  deriving DecidableEq, Repr

/-- Go `isLeap` of package `time`. -/
def isLeap (year : Nat) : Bool :=
  decide (year % 4 = 0) && (decide (year % 100 ≠ 0) || decide (year % 400 = 0))

/-- Go `daysIn` of package `time`. -/
def daysIn (month year : Nat) : Nat :=
  if month = 2 then (if isLeap year then 29 else 28)
  else if month = 4 ∨ month = 6 ∨ month = 9 ∨ month = 11 then 30
  else 31

/-- Go `time.Parse("2006-01-02", s)`: four year digits, `-`, two month
digits, `-`, two day digits and nothing more, with the month in 1..12 and the
day in 1..daysIn.  `none` is the parse error. -/
def parseDate (s : Str) : Option Date :=
  match s with
  | [y1, y2, y3, y4, s1, m1, m2, s2, d1, d2] =>
    if [y1, y2, y3, y4, m1, m2, d1, d2].all isDigit && s1 = '-' && s2 = '-' then
      let year := (y1.toNat - 48) * 1000 + (y2.toNat - 48) * 100
                  + (y3.toNat - 48) * 10 + (y4.toNat - 48)
      let month := (m1.toNat - 48) * 10 + (m2.toNat - 48)
      let day := (d1.toNat - 48) * 10 + (d2.toNat - 48)
      if 1 ≤ month ∧ month ≤ 12 ∧ 1 ≤ day ∧ day ≤ daysIn month year then
        some ⟨year, month, day⟩
      else none
    else none
  | _ => none

/-- The decimal digit of a number below ten. -/
def digitChar (n : Nat) : Char :=
  Char.ofNat (48 + n)

/-- Go `Month.String()`. -/
def monthName (month : Nat) : Str :=
  (["January", "February", "March", "April", "May", "June", "July", "August",
    "September", "October", "November", "December"].getD (month - 1) "").toList

/-- Go `t.Format("January 2, 2006")`: month name, day without padding, year
padded to four digits. -/
def formatLong (t : Date) : Str :=
  monthName t.month ++ " ".toList
    ++ (if t.day < 10 then [digitChar t.day]
        else [digitChar (t.day / 10), digitChar (t.day % 10)])
    ++ ", ".toList
    ++ [digitChar (t.year / 1000), digitChar (t.year / 100 % 10),
        digitChar (t.year / 10 % 10), digitChar (t.year % 10)]

/-! ## Handlers of `daily_files.go` -/

/-- Go struct `DailyNote`.  `date` is kept as bytes: in `ListDailyFiles` it is
a byte slice of a path. -/
structure DailyNote where
  id : Str
  date : List Nat
  name : Str
  path : Str
  content : Str
  created_at : Option Str
  updated_at : Option Str
  deriving DecidableEq, Repr

/-- Go struct `DailyYear`. -/
structure DailyYear where
  year : List Nat
  notes : List DailyNote
  deriving DecidableEq, Repr

/-- `dateToPath`. -/
def dateToPath (dateStr : Str) : Str :=
  "/daily/".toList ++ dateStr ++ ".md".toList

/-- `ensureDailyFolder`: `none` is the returned error. -/
def ensureDailyFolder (db : Store) (id now : Str) : Option Store :=
  match selectByPath db "/daily".toList with
  | some _ => some db
  | none =>
    insertRow db
      { id := id, type := "folder".toList, name := "daily".toList,
        path := "/daily".toList, parent_path := "/".toList, content := [],
        is_daily := false, sort_order := 0, created := now, updated := now }

/-- `SELECT ... FROM fs_nodes WHERE path = ? AND is_daily = 1`. -/
def selectDaily (db : Store) (p : Str) : Option Row :=
  db.find? (fun r => r.path = p ∧ r.is_daily = true)

/-- The default content of a daily note. -/
def dailyHeader (t : Date) : Str :=
  "# ".toList ++ formatLong t ++ "\n\n".toList

/-- The `DailyNote` filled from a row by `GetDailyFile` and `UpdateDailyFile`. -/
def dailyOfRow (dateStr : Str) (r : Row) : DailyNote :=
  { id := r.id, date := utf8Bytes dateStr, name := r.name, path := r.path,
    content := r.content,
    created_at := if r.created = [] then none else some r.created,
    updated_at := if r.updated = [] then none else some r.updated }

/-- `GetDailyFile`: `folderId`, `folderNow` are the id and clock read inside
`ensureDailyFolder`, `id`, `now` those read for the note. -/
def GetDailyFile (db : Store) (dateStr folderId folderNow id now : Str) :
    Response DailyNote × Store :=
  match parseDate dateStr with
  | none => (⟨400, none⟩, db)
  | some t =>
    let path := dateToPath dateStr
    let name := dateStr ++ ".md".toList
    match selectDaily db path with
    | some r => (⟨200, some (dailyOfRow dateStr r)⟩, db)
    | none =>
      match ensureDailyFolder db folderId folderNow with
      | none => (⟨500, none⟩, db)
      | some db1 =>
        let content := dailyHeader t
        match insertRow db1
            { id := id, type := "file".toList, name := name, path := path,
              parent_path := "/daily".toList, content := content,
              is_daily := true, sort_order := 0, created := now, updated := now } with
        | none => (⟨500, none⟩, db1)
        | some db2 =>
          (⟨201, some
            { id := id, date := utf8Bytes dateStr, name := name, path := path,
              content := content, created_at := some now, updated_at := some now }⟩, db2)

/-- `UpdateDailyFile`. -/
def UpdateDailyFile (db : Store) (dateStr reqContent folderId folderNow id now : Str) :
    Response DailyNote × Store :=
  match parseDate dateStr with
  | none => (⟨400, none⟩, db)
  | some t =>
    let path := dateToPath dateStr
    let name := dateStr ++ ".md".toList
    match selectDaily db path with
    | none =>
      match ensureDailyFolder db folderId folderNow with
      | none => (⟨500, none⟩, db)
      | some db1 =>
        let content := if reqContent = [] then dailyHeader t else reqContent
        match insertRow db1
            { id := id, type := "file".toList, name := name, path := path,
              parent_path := "/daily".toList, content := content,
              is_daily := true, sort_order := 0, created := now, updated := now } with
        | none => (⟨500, none⟩, db1)
        | some db2 =>
          (⟨201, some
            { id := id, date := utf8Bytes dateStr, name := name, path := path,
              content := content, created_at := some now, updated_at := some now }⟩, db2)
    | some r =>
      let db1 := updateKeepPath db r.id (fun x => { x with content := reqContent, updated := now })
      match selectById db1 r.id with
      | some x => (⟨200, some (dailyOfRow dateStr x)⟩, db1)
      | none =>
        (⟨200, some
          { id := [], date := utf8Bytes dateStr, name := [], path := [], content := [],
            created_at := none, updated_at := none }⟩, db1)

/-- `DeleteDailyFile`. -/
def DeleteDailyFile (db : Store) (dateStr : Str) : Response DailyNote × Store :=
  match parseDate dateStr with
  | none => (⟨400, none⟩, db)
  | some _ =>
    let path := dateToPath dateStr
    let db1 := db.filter (fun r => !(decide (r.path = path) && r.is_daily))
    if db1.length = db.length then (⟨404, none⟩, db) else (⟨204, none⟩, db1)

/-- The rows of `ListDailyFiles`: `WHERE is_daily = 1 AND type = 'file'
ORDER BY path DESC` (binary collation: byte order). -/
def selectDailyFiles (db : Store) : List Row :=
  (db.filter (fun r => r.is_daily && decide (r.type = "file".toList))).insertionSort
    (fun a b => bytesLt (utf8Bytes a.path) (utf8Bytes b.path) = false)

/-- `yearMap[year] = append(yearMap[year], note)` on a map kept as the list
of its entries. -/
def yearMapAppend (m : List (List Nat × List DailyNote)) (year : List Nat) (note : DailyNote) :
    List (List Nat × List DailyNote) :=
  match m with
  | [] => [(year, [note])]
  | (y, ns) :: rest =>
    if y = year then (y, ns ++ [note]) :: rest
    else (y, ns) :: yearMapAppend rest year note

/-- The body of the `rows.Next()` loop of `ListDailyFiles`. -/
def listStep (m : List (List Nat × List DailyNote)) (r : Row) :
    List (List Nat × List DailyNote) :=
  if 20 ≤ goLen r.path then
    let date := goSlice (utf8Bytes r.path) 7 17
    let year := goSlice date 0 4
    yearMapAppend m year
      { id := r.id, date := date, name := r.name, path := r.path, content := [],
        created_at := if r.created = [] then none else some r.created,
        updated_at := if r.updated = [] then none else some r.updated }
  else m

/-- `ListDailyFiles`: the `years` of the response.  The map is ranged over in
the order of its entry list; Go leaves that order unspecified, and the final
sort on distinct keys does not depend on it. -/
def ListDailyFiles (db : Store) : List DailyYear :=
  let yearMap := (selectDailyFiles db).foldl listStep []
  let years := yearMap.map (fun e =>
    ({ year := e.1, notes := sortSlice (fun a b => bytesLt b.date a.date) e.2 } : DailyYear))
  sortSlice (fun a b => bytesLt b.year a.year) years

/-! ## Reachable stores -/

/-- One request served by a mutating handler, on a database file of journal
mode `m`. -/
inductive Step (m : JournalMode) : Store → Store → Prop
  | create (db : Store) (req : FsNodeRequest) (id now : Str) :
      Step m db (CreateNode db req id now).2
  | update (db : Store) (id : Str) (req : FsNodeRequest) (now : Str) :
      Step m db (UpdateNode db id req now).2
  | move (db : Store) (id : Str) (req : MoveRequest) (now : Str) :
      Step m db (MoveNode m db id req now).2
  | delete (db : Store) (id : Str) :
      Step m db (DeleteNode db id).2
  | dailyGet (db : Store) (dateStr folderId folderNow id now : Str) :
      Step m db (GetDailyFile db dateStr folderId folderNow id now).2
  | dailyUpdate (db : Store) (dateStr reqContent folderId folderNow id now : Str) :
      Step m db (UpdateDailyFile db dateStr reqContent folderId folderNow id now).2
  | dailyDelete (db : Store) (dateStr : Str) :
      Step m db (DeleteDailyFile db dateStr).2

/-- The stores reachable from the empty table, on a database file of journal
mode `m`. -/
inductive Reachable (m : JournalMode) : Store → Prop
  | empty : Reachable m []
  | step {db db2 : Store} : Reachable m db → Step m db db2 → Reachable m db2

/-- The `parent_path` a create request ends up with: empty defaults to `/`. -/
def parentOrRoot (p : Str) : Str :=
  if p = [] then "/".toList else p

/-- The row written by a successful `CreateNode`. -/
def createdRow (req : FsNodeRequest) (id now : Str) : Row :=
  { id := id, type := req.type, name := req.name,
    path := buildPath (parentOrRoot req.parent_path) req.name,
    parent_path := parentOrRoot req.parent_path, content := req.content,
    is_daily := req.is_daily, sort_order := req.sort_order,
    created := now, updated := now }

/-- A row given by its five text columns that matter for the tree. -/
def mkRow (id type name path parentPath : String) : Row :=
  { id := id.toList, type := type.toList, name := name.toList, path := path.toList,
    parent_path := parentPath.toList, content := [], is_daily := false, sort_order := 0,
    created := "t0".toList, updated := "t0".toList }

/-- A path starts with `p` followed by a separator: it lies strictly below `p`. -/
def Below (p q : Str) : Prop :=
  (p ++ "/".toList) <+: q

instance (p q : Str) : Decidable (Below p q) := by
  unfold Below
  infer_instance

/-- Schema constraints of `fs_nodes`: `id` is a key and `path` is unique. -/
def Unique (db : Store) : Prop :=
  (db.map (fun r => r.id)).Nodup ∧ (db.map (fun r => r.path)).Nodup

/-- The row written by `ensureDailyFolder`. -/
def dailyFolderRow (id now : Str) : Row :=
  { id := id, type := "folder".toList, name := "daily".toList,
    path := "/daily".toList, parent_path := "/".toList, content := [],
    is_daily := false, sort_order := 0, created := now, updated := now }

/-- The row written by `GetDailyFile` and `UpdateDailyFile` for a new note. -/
def dailyFileRow (dateStr content id now : Str) : Row :=
  { id := id, type := "file".toList, name := dateStr ++ ".md".toList,
    path := dateToPath dateStr, parent_path := "/daily".toList, content := content,
    is_daily := true, sort_order := 0, created := now, updated := now }

/-- The note `ListDailyFiles` builds from a row: the date is bytes 7..16 of
the path. -/
def listNote (r : Row) : DailyNote :=
  { id := r.id, date := goSlice (utf8Bytes r.path) 7 17, name := r.name, path := r.path,
    content := [],
    created_at := if r.created = [] then none else some r.created,
    updated_at := if r.updated = [] then none else some r.updated }

/-- The rows `ListDailyFiles` puts in a group: daily files whose path has at
least 20 bytes. -/
def listed (r : Row) : Bool :=
  r.is_daily && decide (r.type = "file".toList) && decide (20 ≤ goLen r.path)

/-- What holds of a note filed under a year key. -/
def Filed (y : List Nat) (x : DailyNote) : Prop :=
  goSlice x.date 0 4 = y ∧ x.date = goSlice (utf8Bytes x.path) 7 17 ∧ 20 ≤ goLen x.path

/-- A row whose `updated` column is set to `now`. -/
def touch (now : Str) (r : Row) : Row :=
  { r with updated := now }

/-- The name `MoveNode` gives a node: the requested one, or the current one
when the request leaves it empty. -/
def moveName (cur : Row) (req : MoveRequest) : Str :=
  if req.new_name = [] then cur.name else req.new_name

/-- The parent path `MoveNode` gives a node. -/
def moveParent (cur : Row) (req : MoveRequest) : Str :=
  if req.new_parent_path = [] then cur.parent_path else req.new_parent_path

/-- The path `MoveNode` computes for a node. -/
def movePath (cur : Row) (req : MoveRequest) : Str :=
  buildPath (moveParent cur req) (moveName cur req)

/-- The row `MoveNode` writes over the node it moves. -/
def movedRow (cur : Row) (req : MoveRequest) (now : Str) (r : Row) : Row :=
  { r with name := moveName cur req, path := movePath cur req,
           parent_path := moveParent cur req, updated := now }

/-- The row a turn of the cascade of `MoveNode` writes over `r` for the
scanned row `child`. -/
def cascadedRow (oldPath newPath now : Str) (child r : Row) : Row :=
  { r with path := replaceFirst child.path oldPath newPath,
           parent_path :=
             if child.parent_path = oldPath then newPath
             else replaceFirst child.parent_path oldPath newPath,
           updated := now }

/-- The cascade of `MoveNode` for the moved node `cur`, run on the store `db1`
left by the UPDATE of the node itself. -/
def moveCascade (m : JournalMode) (cur : Row) (newPath now : Str) (db1 : Store) : Store :=
  if cur.type = "folder".toList then
    match selectLike db1 (cur.path ++ "/%".toList) with
    | none => db1
    | some rows => rows.foldl (cascadeStep m cur.path newPath now) db1
  else db1

/-- The store after creating folder `a` in `/` and file `x` in `/a`. -/
def folderWithChild : Store :=
  (CreateNode
    (CreateNode [] ⟨"folder".toList, "a".toList, "/".toList, [], false, 0⟩
      "1".toList "t0".toList).2
    ⟨"file".toList, "x".toList, "/a".toList, [], false, 0⟩ "2".toList "t0".toList).2

/-- The store after creating file `x` in `/`. -/
def singleFile : Store :=
  (CreateNode [] ⟨"file".toList, "x".toList, "/".toList, [], false, 0⟩
    "1".toList "t0".toList).2

/-- The path of a row is the one `buildPath` derives from its parent path and
its non-empty name. -/
def Derived (r : Row) : Prop :=
  r.path = buildPath r.parent_path r.name ∧ r.name ≠ []

instance (r : Row) : Decidable (Derived r) := by
  unfold Derived
  infer_instance

/-- The cascade of a move of `cur`, run on the store `db1` left by the update
of `cur` itself, selects only rows whose parent path is the old path of `cur`
or lies below it. -/
def CascadeInside (db1 : Store) (cur : Row) : Prop :=
  ∀ rows : List Row, selectLike db1 (cur.path ++ "/%".toList) = some rows →
    ∀ c ∈ rows, c.parent_path = cur.path ∨ Below cur.path c.parent_path

/-- One request served on a database file of journal mode `m`, where an
update keeps the stored name and, on a write-ahead-log file (where the
cascade of a folder move is applied), that cascade stays inside the moved
folder. -/
inductive NameKeepingStep (m : JournalMode) : Store → Store → Prop
  | create (db : Store) (req : FsNodeRequest) (id now : Str) :
      NameKeepingStep m db (CreateNode db req id now).2
  | update (db : Store) (id : Str) (req : FsNodeRequest) (now : Str)
      (hname : ∀ cur : Row, selectById db id = some cur →
        req.name = [] ∨ req.name = cur.name) :
      NameKeepingStep m db (UpdateNode db id req now).2
  | move (db : Store) (id : Str) (req : MoveRequest) (now : Str)
      (hinside : m = JournalMode.wal →
        ∀ (cur : Row) (db1 : Store), selectById db id = some cur →
        cur.type = "folder".toList →
        updateSetPath db id (movedRow cur req now) = some db1 → CascadeInside db1 cur) :
      NameKeepingStep m db (MoveNode m db id req now).2
  | delete (db : Store) (id : Str) :
      NameKeepingStep m db (DeleteNode db id).2
  | dailyGet (db : Store) (dateStr folderId folderNow id now : Str) :
      NameKeepingStep m db (GetDailyFile db dateStr folderId folderNow id now).2
  | dailyUpdate (db : Store) (dateStr reqContent folderId folderNow id now : Str) :
      NameKeepingStep m db (UpdateDailyFile db dateStr reqContent folderId folderNow id now).2
  | dailyDelete (db : Store) (dateStr : Str) :
      NameKeepingStep m db (DeleteDailyFile db dateStr).2

/-- The stores reachable from the empty table by name-keeping steps. -/
inductive NameKeepingReachable (m : JournalMode) : Store → Prop
  | empty : NameKeepingReachable m []
  | step {db db2 : Store} :
      NameKeepingReachable m db → NameKeepingStep m db db2 → NameKeepingReachable m db2

/-- The row `UpdateNode` writes over the node `cur`. -/
def updatedRow (cur : Row) (req : FsNodeRequest) (now : Str) : Row :=
  { cur with name := if req.name ≠ [] then req.name else cur.name,
             content := if req.content ≠ [] ∨ cur.type = "file".toList
                        then req.content else cur.content,
             sort_order := req.sort_order, updated := now }

/-- Prefix substitution as the specification words it: strip `len(oldPath)`
characters from `p` and prepend `newPath`. -/
def prefixSubst (p oldPath newPath : Str) : Str :=
  newPath ++ p.drop oldPath.length

/-- The store after creating folder `a` in `/` and folder `b` in `/a`. -/
def nestedFolders : Store :=
  (CreateNode
    (CreateNode [] ⟨"folder".toList, "a".toList, "/".toList, [], false, 0⟩
      "1".toList "t0".toList).2
    ⟨"folder".toList, "b".toList, "/a".toList, [], false, 0⟩ "2".toList "t0".toList).2

/-- The store after creating folders `a` and `A` in `/` and file `x` in `/A`. -/
def caseTwins : Store :=
  (CreateNode
    (CreateNode
      (CreateNode [] ⟨"folder".toList, "a".toList, "/".toList, [], false, 0⟩
        "1".toList "t0".toList).2
      ⟨"folder".toList, "A".toList, "/".toList, [], false, 0⟩ "2".toList "t0".toList).2
    ⟨"file".toList, "x".toList, "/A".toList, [], false, 0⟩ "3".toList "t0".toList).2

/-- The index, in the result of `buildPath`, of the separator it writes
between parent and name. -/
def joinIndex (parentPath : Str) : Nat :=
  if parentPath = "/".toList then 0 else parentPath.length

/-- The separator `buildPath` writes at the join is doubled: the character
after it, or the one before it, is a separator too. -/
def JoinDoubled (parentPath name : Str) : Prop :=
  (buildPath parentPath name)[joinIndex parentPath + 1]? = some '/'
  ∨ (0 < joinIndex parentPath
      ∧ (buildPath parentPath name)[joinIndex parentPath - 1]? = some '/')

instance (parentPath name : Str) : Decidable (JoinDoubled parentPath name) := by
  unfold JoinDoubled
  infer_instance

/-- The English month name for the two month digits of a date string. -/
def monthWord (m1 m2 : Char) : Str :=
  if m1 = '0' then
    if m2 = '1' then "January".toList
    else if m2 = '2' then "February".toList
    else if m2 = '3' then "March".toList
    else if m2 = '4' then "April".toList
    else if m2 = '5' then "May".toList
    else if m2 = '6' then "June".toList
    else if m2 = '7' then "July".toList
    else if m2 = '8' then "August".toList
    else if m2 = '9' then "September".toList
    else []
  else if m1 = '1' then
    if m2 = '0' then "October".toList
    else if m2 = '1' then "November".toList
    else if m2 = '2' then "December".toList
    else []
  else []

/-- The long form of a date string `YYYY-MM-DD`, read off its characters: the
month name, the day without a leading zero, a comma and the four year digits,
as in `March 5, 2024` for `2024-03-05`. -/
def longDate (d : Str) : Str :=
  match d with
  | [y1, y2, y3, y4, _, m1, m2, _, d1, d2] =>
    monthWord m1 m2 ++ " ".toList ++ (if d1 = '0' then [d2] else [d1, d2])
      ++ ", ".toList ++ [y1, y2, y3, y4]
  | _ => []

/-- A path of 49999 bytes: `/` and 49998 times `a`. -/
def longPath : Str :=
  '/' :: List.replicate 49998 'a'

/-- A folder in `/` whose name has 49998 characters. -/
def longFolder : Row :=
  { id := "1".toList, type := "folder".toList, name := List.replicate 49998 'a',
    path := longPath, parent_path := "/".toList, content := [], is_daily := false,
    sort_order := 0, created := "t0".toList, updated := "t0".toList }

/-- A file `x` in the folder `longFolder`. -/
def longChild : Row :=
  { id := "2".toList, type := "file".toList, name := "x".toList,
    path := longPath ++ "/x".toList, parent_path := longPath, content := [],
    is_daily := false, sort_order := 0, created := "t0".toList, updated := "t0".toList }

/-! ## Path construction -/

theorem buildPath_root (name : Str) : buildPath "/".toList name = '/' :: name := by
  simp [buildPath]

theorem buildPath_of_ne_root (parentPath name : Str) (h : parentPath ≠ "/".toList) :
    buildPath parentPath name = parentPath ++ '/' :: name := by
  unfold buildPath
  rw [if_neg h]
  simp

theorem not_joinDoubled (parentPath name : Str)
    (hp : parentPath = "/".toList ∨ parentPath.getLast? ≠ some '/')
    (hn : name.head? ≠ some '/') : ¬ JoinDoubled parentPath name := by
  have hn0 : name[0]? ≠ some '/' := by
    rw [← List.head?_eq_getElem?]
    exact hn
  unfold JoinDoubled joinIndex
  by_cases h : parentPath = "/".toList
  · rw [if_pos h, h, buildPath_root]
    rintro (h1 | ⟨h1, _⟩)
    · exact hn0 (by simpa using h1)
    · exact absurd h1 (by decide)
  · have hl : parentPath.getLast? ≠ some '/' := by
      rcases hp with hp | hp
      · exact absurd hp h
      · exact hp
    rw [if_neg h, buildPath_of_ne_root _ _ h]
    rintro (h1 | ⟨h0, h1⟩)
    · rw [List.getElem?_append_right (by omega)] at h1
      have : parentPath.length + 1 - parentPath.length = 1 := by omega
      rw [this] at h1
      exact hn0 (by simpa using h1)
    · rw [List.getElem?_append_left (by omega)] at h1
      rw [List.getLast?_eq_getElem?] at hl
      exact hl h1

/-- C7, as the code has it: `buildPath("/", name) = "/" + name`; for any other
parent the result is `parentPath + "/" + name`; the two examples of the
specification hold; the separator written at the join is never preceded by
another one when the parent is `/` or does not end in `/`; and it is not
doubled on either side when, in addition, the name does not begin with `/`. -/
theorem buildPath_spec (parentPath name : Str) :
    buildPath "/".toList name = "/".toList ++ name
    ∧ (parentPath ≠ "/".toList →
        buildPath parentPath name = parentPath ++ "/".toList ++ name)
    ∧ buildPath "/".toList "x".toList = "/x".toList
    ∧ buildPath "/a".toList "x".toList = "/a/x".toList
    ∧ (parentPath = "/".toList ∨ parentPath.getLast? ≠ some '/' →
        ∃ q : Str, buildPath parentPath name = q ++ '/' :: name
          ∧ q.getLast? ≠ some '/')
    ∧ (parentPath = "/".toList ∨ parentPath.getLast? ≠ some '/' →
        name.head? ≠ some '/' → ¬ JoinDoubled parentPath name) := by
  refine ⟨by simp [buildPath], fun h => by simp [buildPath_of_ne_root _ _ h],
    by decide, by decide, ?_, not_joinDoubled parentPath name⟩
  intro h
  by_cases hp : parentPath = "/".toList
  · exact ⟨[], by simp [buildPath, hp], by simp⟩
  · rcases h with h | h
    · exact absurd h hp
    · exact ⟨parentPath, buildPath_of_ne_root _ _ hp, h⟩

theorem buildPath_spec_witness :
    buildPath "/a/b".toList "n".toList = "/a/b/n".toList
    ∧ ¬ JoinDoubled "/a/b".toList "n".toList :=
  ⟨by decide,
   (buildPath_spec "/a/b".toList "n".toList).2.2.2.2.2 (Or.inr (by decide)) (by decide)⟩

/-- C7 fails as stated: the parent `/a` does not end in `/`, and for the name
`/x`, which `CreateNode` accepts, `buildPath` returns `/a//x`, with the
separator of the join doubled. -/
theorem buildPath_doubles_separator :
    ("/a".toList).getLast? ≠ some '/'
    ∧ buildPath "/a".toList "/x".toList = "/a//x".toList
    ∧ JoinDoubled "/a".toList "/x".toList
    ∧ (CreateNode [mkRow "1" "folder" "a" "/a" "/"]
        ⟨"file".toList, "/x".toList, "/a".toList, [], false, 0⟩
        "2".toList "t1".toList).2
      = [mkRow "1" "folder" "a" "/a" "/",
         { mkRow "2" "file" "/x" "/a//x" "/a" with
             created := "t1".toList, updated := "t1".toList }] := by
  decide

/-! ## Create, then read back -/

theorem selectByPath_eq_none {db : Store} {p : Str} :
    selectByPath db p = none ↔ ∀ r ∈ db, r.path ≠ p := by
  simp [selectByPath]

theorem selectFolder_isSome {db : Store} {p : Str} :
    (selectFolder db p).isSome = true ↔ ∃ r ∈ db, r.path = p ∧ r.type = "folder".toList := by
  simp [selectFolder]

theorem insertRow_fresh {db : Store} {r : Row}
    (hid : ∀ o ∈ db, o.id ≠ r.id) (hpath : ∀ o ∈ db, o.path ≠ r.path) :
    insertRow db r = some (db ++ [r]) := by
  unfold insertRow
  rw [if_neg]
  simp only [Bool.or_eq_true, List.any_eq_true, decide_eq_true_eq, not_or, not_exists, not_and]
  exact ⟨hid, hpath⟩

theorem selectByPath_append_new {db : Store} {r : Row}
    (hpath : ∀ o ∈ db, o.path ≠ r.path) :
    selectByPath (db ++ [r]) r.path = some r := by
  unfold selectByPath
  rw [List.find?_append]
  have h : List.find? (fun o => decide (o.path = r.path)) db = none := by
    simpa using hpath
  rw [h]
  simp

theorem buildPath_ne_nil (parentPath name : Str) : buildPath parentPath name ≠ [] := by
  unfold buildPath
  split <;> simp

theorem CreateNode_conflict (db : Store) (req : FsNodeRequest) (id now : Str)
    (htype : req.type = "folder".toList ∨ req.type = "file".toList)
    (hname : req.name ≠ [])
    (hparent : parentOrRoot req.parent_path = "/".toList
      ∨ ∃ r ∈ db, r.path = parentOrRoot req.parent_path ∧ r.type = "folder".toList)
    (hheld : ∃ r ∈ db, r.path = buildPath (parentOrRoot req.parent_path) req.name) :
    CreateNode db req id now = (⟨409, none⟩, db) := by
  have hty : ¬ (req.type ≠ "folder".toList ∧ req.type ≠ "file".toList) := by
    rintro ⟨h1, h2⟩
    rcases htype with h | h
    · exact h1 h
    · exact h2 h
  have hpar : ¬ (parentOrRoot req.parent_path ≠ "/".toList
      ∧ (selectFolder db (parentOrRoot req.parent_path)).isNone = true) := by
    rintro ⟨h1, h2⟩
    rcases hparent with h | h
    · exact h1 h
    · have := selectFolder_isSome.mpr h
      rw [Option.isNone_iff_eq_none] at h2
      rw [h2] at this
      exact absurd this (by simp)
  have hsel : (selectByPath db (buildPath (parentOrRoot req.parent_path) req.name)).isSome
      = true := by
    rcases hheld with ⟨r, hr, hp⟩
    rw [Option.isSome_iff_ne_none]
    intro hnone
    exact selectByPath_eq_none.mp hnone r hr hp
  unfold CreateNode
  rw [if_neg hty, if_neg hname]
  simp only [parentOrRoot] at hpar hsel
  simp only [hpar, hsel, if_true, if_false]

theorem CreateNode_created (db : Store) (req : FsNodeRequest) (id now : Str)
    (htype : req.type = "folder".toList ∨ req.type = "file".toList)
    (hname : req.name ≠ [])
    (hparent : parentOrRoot req.parent_path = "/".toList
      ∨ ∃ r ∈ db, r.path = parentOrRoot req.parent_path ∧ r.type = "folder".toList)
    (hfree : ∀ r ∈ db, r.path ≠ buildPath (parentOrRoot req.parent_path) req.name)
    (hid : ∀ r ∈ db, r.id ≠ id) :
    CreateNode db req id now
      = (⟨201, some (scanNode (createdRow req id now))⟩ , db ++ [createdRow req id now])
    ∨ (now = [] ∧ (CreateNode db req id now).1.status = 201
        ∧ (CreateNode db req id now).2 = db ++ [createdRow req id now]) := by
  have hty : ¬ (req.type ≠ "folder".toList ∧ req.type ≠ "file".toList) := by
    rintro ⟨h1, h2⟩
    rcases htype with h | h
    · exact h1 h
    · exact h2 h
  have hpar : ¬ (parentOrRoot req.parent_path ≠ "/".toList
      ∧ (selectFolder db (parentOrRoot req.parent_path)).isNone = true) := by
    rintro ⟨h1, h2⟩
    rcases hparent with h | h
    · exact h1 h
    · have := selectFolder_isSome.mpr h
      rw [Option.isNone_iff_eq_none] at h2
      rw [h2] at this
      exact absurd this (by simp)
  have hsel := selectByPath_eq_none.mpr hfree
  have hins := insertRow_fresh (r := createdRow req id now) hid hfree
  simp only [parentOrRoot, createdRow] at hpar hsel hins
  by_cases hnow : now = []
  · right
    refine ⟨hnow, ?_, ?_⟩ <;>
    · unfold CreateNode
      rw [if_neg hty, if_neg hname]
      simp only [hpar, hsel, hins, Option.isSome_none, Bool.false_eq_true, if_false,
        parentOrRoot, createdRow]
  · left
    unfold CreateNode
    rw [if_neg hty, if_neg hname]
    simp only [hpar, hsel, hins, Option.isSome_none, Bool.false_eq_true, if_false,
      parentOrRoot, createdRow, scanNode, hnow]

/-- C1: a create request with a valid type, a non-empty name and a parent
that is `/` (possibly by default) or an existing folder, at a path no node
holds, succeeds with 201 when the generated id is fresh; `GetNode` on the
path then returns a node with the request's type, name, path, parent path,
content, daily flag and sort order; and any further create with the same
parent and name answers 409 and leaves the store as it is. -/
theorem create_then_get (db : Store) (req : FsNodeRequest) (id now : Str)
    (htype : req.type = "folder".toList ∨ req.type = "file".toList)
    (hname : req.name ≠ [])
    (hparent : parentOrRoot req.parent_path = "/".toList
      ∨ ∃ r ∈ db, r.path = parentOrRoot req.parent_path ∧ r.type = "folder".toList)
    (hfree : ∀ r ∈ db, r.path ≠ buildPath (parentOrRoot req.parent_path) req.name)
    (hid : ∀ r ∈ db, r.id ≠ id) :
    (CreateNode db req id now).1.status = 201
    ∧ (∃ n : FsNode,
        GetNode (CreateNode db req id now).2
            (buildPath (parentOrRoot req.parent_path) req.name) = ⟨200, some n⟩
        ∧ n.type = req.type ∧ n.name = req.name
        ∧ n.path = buildPath (parentOrRoot req.parent_path) req.name
        ∧ n.parent_path = parentOrRoot req.parent_path
        ∧ n.content = req.content ∧ n.is_daily = req.is_daily
        ∧ n.sort_order = req.sort_order)
    ∧ ∀ (req2 : FsNodeRequest) (id2 now2 : Str),
        (req2.type = "folder".toList ∨ req2.type = "file".toList) →
        req2.name = req.name → req2.parent_path = req.parent_path →
        CreateNode (CreateNode db req id now).2 req2 id2 now2
          = (⟨409, none⟩, (CreateNode db req id now).2) := by
  have hst : (CreateNode db req id now).1.status = 201
      ∧ (CreateNode db req id now).2 = db ++ [createdRow req id now] := by
    rcases CreateNode_created db req id now htype hname hparent hfree hid with h | h
    · rw [h]; exact ⟨rfl, rfl⟩
    · exact ⟨h.2.1, h.2.2⟩
  have hget : selectByPath (db ++ [createdRow req id now])
      (buildPath (parentOrRoot req.parent_path) req.name) = some (createdRow req id now) :=
    selectByPath_append_new (r := createdRow req id now) hfree
  refine ⟨hst.1, ?_, ?_⟩
  · refine ⟨scanNode (createdRow req id now), ?_, rfl, rfl, rfl, rfl, rfl, rfl, rfl⟩
    rw [hst.2]
    unfold GetNode
    rw [if_neg (buildPath_ne_nil _ _), hget]
  · intro req2 id2 now2 hty2 hn2 hp2
    rw [hst.2]
    apply CreateNode_conflict _ _ _ _ hty2 (hn2 ▸ hname)
    · rw [hp2]
      rcases hparent with h | ⟨r, hr, h⟩
      · exact Or.inl h
      · exact Or.inr ⟨r, List.mem_append_left _ hr, h⟩
    · rw [hp2, hn2]
      exact ⟨createdRow req id now, by simp, rfl⟩

theorem create_then_get_witness :
    (CreateNode [mkRow "1" "folder" "a" "/a" "/"]
        ⟨"file".toList, "x".toList, "/a".toList, "hi".toList, false, 3⟩
        "2".toList "t1".toList).1.status = 201
    ∧ ∃ n : FsNode,
        GetNode (CreateNode [mkRow "1" "folder" "a" "/a" "/"]
          ⟨"file".toList, "x".toList, "/a".toList, "hi".toList, false, 3⟩
          "2".toList "t1".toList).2 "/a/x".toList = ⟨200, some n⟩
        ∧ n.content = "hi".toList ∧ n.sort_order = 3 := by
  have h := create_then_get [mkRow "1" "folder" "a" "/a" "/"]
    ⟨"file".toList, "x".toList, "/a".toList, "hi".toList, false, 3⟩
    "2".toList "t1".toList (by decide) (by decide) (by decide) (by decide) (by decide)
  obtain ⟨h1, ⟨n, hn, _, _, _, _, hc, _, hs⟩, _⟩ := h
  exact ⟨h1, n, hn, hc, hs⟩

/-! ## Delete -/

theorem sqlLike_percent (s : Str) : sqlLike "%".toList s = true := by
  show sqlLike ['%'] s = true
  unfold sqlLike
  simp only [if_true, List.any_eq_true]
  exact ⟨[], by simp, by simp [sqlLike]⟩

theorem sqlLike_below (p s : Str) :
    sqlLike (p ++ "/%".toList) (p ++ '/' :: s) = true := by
  induction p with
  | nil =>
    show sqlLike ('/' :: ['%']) ('/' :: s) = true
    unfold sqlLike
    rw [if_neg (by decide)]
    simp only [Bool.and_eq_true, Bool.or_eq_true, decide_eq_true_eq]
    exact ⟨Or.inr trivial, sqlLike_percent s⟩
  | cons c p ih =>
    show sqlLike (c :: (p ++ "/%".toList)) (c :: (p ++ '/' :: s)) = true
    unfold sqlLike
    by_cases hc : c = '%'
    · rw [if_pos hc]
      simp only [List.any_eq_true]
      exact ⟨p ++ '/' :: s, by simp [List.tails], ih⟩
    · rw [if_neg hc]
      simp only [Bool.and_eq_true, Bool.or_eq_true, decide_eq_true_eq]
      exact ⟨Or.inr trivial, ih⟩

theorem sqlLike_of_Below {p q : Str} (h : Below p q) :
    sqlLike (p ++ "/%".toList) q = true := by
  obtain ⟨t, rfl⟩ := h
  have := sqlLike_below p t
  simpa using this

theorem selectById_of_mem {db : Store} {r : Row}
    (hids : (db.map (fun r => r.id)).Nodup) (hr : r ∈ db) :
    selectById db r.id = some r := by
  induction db with
  | nil => cases hr
  | cons a db ih =>
    simp only [List.map_cons, List.nodup_cons, List.mem_map, not_exists, not_and] at hids
    unfold selectById
    rw [List.find?_cons]
    by_cases ha : a.id = r.id
    · simp only [ha, decide_True]
      rcases List.mem_cons.mp hr with h | h
      · rw [h]
      · exact absurd ha.symm (hids.1 r h)
    · simp only [ha, decide_False]
      rcases List.mem_cons.mp hr with h | h
      · exact absurd (h ▸ rfl) ha
      · exact ih hids.2 h

theorem eq_of_path_eq {db : Store} {r o : Row}
    (hpaths : (db.map (fun r => r.path)).Nodup) (hr : r ∈ db) (ho : o ∈ db)
    (h : r.path = o.path) : r = o :=
  List.inj_on_of_nodup_map hpaths hr ho h

theorem utf8Bytes_append (a b : Str) : utf8Bytes (a ++ b) = utf8Bytes a ++ utf8Bytes b := by
  unfold utf8Bytes
  exact List.flatMap_append a b utf8Char

theorem goLen_append (a b : Str) : goLen (a ++ b) = goLen a + goLen b := by
  unfold goLen
  rw [utf8Bytes_append, List.length_append]

theorem goLen_pattern (p : Str) : goLen (p ++ "/%".toList) = goLen p + 2 := by
  rw [goLen_append]
  rfl

theorem deleteLike_ok (db : Store) (p : Str) (h : goLen p ≤ 49998) :
    deleteLike db (p ++ "/%".toList)
      = some (db.filter (fun r => !sqlLike (p ++ "/%".toList) r.path)) := by
  unfold deleteLike likeTooComplex
  rw [goLen_pattern]
  have : ¬ 50000 < goLen p + 2 := by omega
  simp [this]

theorem deleteLike_long (db : Store) (p : Str) (h : 49998 < goLen p) (hdb : db ≠ []) :
    deleteLike db (p ++ "/%".toList) = none := by
  unfold deleteLike likeTooComplex
  rw [goLen_pattern]
  have h1 : 50000 < goLen p + 2 := by omega
  have h2 : db.isEmpty = false := by
    cases db with
    | nil => exact absurd rfl hdb
    | cons a t => rfl
  simp [h1, h2]

/-- C3, as the code has it: deleting a folder `F` whose path has at most 49998
bytes, in a store whose ids and paths are unique, answers 204; afterwards no
row has the id of `F`, no row has a path below `F.path` at any depth, and
`GetNode` answers 404 on `F.path` and on the path of every former
descendant. -/
theorem delete_folder (db : Store) (F : Row) (hF : F ∈ db)
    (hfolder : F.type = "folder".toList) (huniq : Unique db) (hne : F.path ≠ [])
    (hbound : goLen F.path ≤ 49998) :
    (DeleteNode db F.id).1.status = 204
    ∧ (∀ r ∈ (DeleteNode db F.id).2, r.id ≠ F.id)
    ∧ (∀ r ∈ (DeleteNode db F.id).2, ¬ Below F.path r.path)
    ∧ GetNode (DeleteNode db F.id).2 F.path = ⟨404, none⟩
    ∧ ∀ r ∈ db, Below F.path r.path →
        GetNode (DeleteNode db F.id).2 r.path = ⟨404, none⟩ := by
  have hsel := selectById_of_mem huniq.1 hF
  have hres : DeleteNode db F.id
      = (⟨204, none⟩,
         deleteById (db.filter (fun r => !sqlLike (F.path ++ "/%".toList) r.path)) F.id) := by
    unfold DeleteNode
    rw [hsel]
    simp only [hfolder, if_true, deleteLike_ok db F.path hbound]
  have hmem : ∀ r,
      r ∈ deleteById (db.filter (fun r => !sqlLike (F.path ++ "/%".toList) r.path)) F.id →
      r ∈ db ∧ r.id ≠ F.id ∧ ¬ Below F.path r.path := by
    intro r hr
    simp only [deleteById, List.mem_filter, Bool.not_eq_true',
      decide_eq_false_iff_not] at hr
    refine ⟨hr.1.1, hr.2, fun hb => ?_⟩
    rw [sqlLike_of_Below hb] at hr
    exact absurd hr.1.2 (by simp)
  rw [hres]
  refine ⟨rfl, fun r hr => (hmem r hr).2.1, fun r hr => (hmem r hr).2.2, ?_, ?_⟩
  · unfold GetNode
    rw [if_neg hne]
    have : selectByPath
        (deleteById (db.filter (fun r => !sqlLike (F.path ++ "/%".toList) r.path)) F.id)
        F.path = none := by
      rw [selectByPath_eq_none]
      intro r hr hp
      have h := hmem r hr
      exact h.2.1 (congrArg (fun x => x.id) (eq_of_path_eq huniq.2 h.1 hF hp))
    rw [this]
  · intro r _ hb
    unfold GetNode
    have hrne : r.path ≠ [] := by
      obtain ⟨t, ht⟩ := hb
      intro h
      rw [h] at ht
      simp at ht
    rw [if_neg hrne]
    have : selectByPath
        (deleteById (db.filter (fun r => !sqlLike (F.path ++ "/%".toList) r.path)) F.id)
        r.path = none := by
      rw [selectByPath_eq_none]
      intro o ho hp
      exact (hmem o ho).2.2 (hp ▸ hb)
    rw [this]

theorem delete_folder_witness :
    (DeleteNode [mkRow "1" "folder" "a" "/a" "/", mkRow "2" "folder" "b" "/a/b" "/a",
        mkRow "3" "file" "x" "/a/b/x" "/a/b", mkRow "4" "file" "y" "/y" "/"]
      "1".toList).2 = [mkRow "4" "file" "y" "/y" "/"]
    ∧ GetNode (DeleteNode [mkRow "1" "folder" "a" "/a" "/", mkRow "2" "folder" "b" "/a/b" "/a",
        mkRow "3" "file" "x" "/a/b/x" "/a/b", mkRow "4" "file" "y" "/y" "/"]
      "1".toList).2 "/a/b/x".toList = ⟨404, none⟩ :=
  ⟨by decide,
   (delete_folder [mkRow "1" "folder" "a" "/a" "/", mkRow "2" "folder" "b" "/a/b" "/a",
        mkRow "3" "file" "x" "/a/b/x" "/a/b", mkRow "4" "file" "y" "/y" "/"]
      (mkRow "1" "folder" "a" "/a" "/") (by decide) (by decide)
      ⟨by decide, by decide⟩ (by decide) (by decide)).2.2.2.2
      (mkRow "3" "file" "x" "/a/b/x" "/a/b") (by decide) (by decide)⟩

theorem goLen_replicate_a (n : Nat) : goLen (List.replicate n 'a') = n := by
  induction n with
  | zero => rfl
  | succ n ih =>
    have h : List.replicate (n + 1) 'a' = ['a'] ++ List.replicate n 'a' := rfl
    rw [h, goLen_append, ih]
    have : goLen ['a'] = 1 := by decide
    omega

theorem goLen_longPath : goLen longPath = 49999 := by
  have h : longPath = ['/'] ++ List.replicate 49998 'a' := rfl
  rw [h, goLen_append, goLen_replicate_a]
  have : goLen ['/'] = 1 := by decide
  omega

theorem DeleteNode_pair_long (F X : Row) (hid : X.id ≠ F.id)
    (hfolder : F.type = "folder".toList) (hlong : 49998 < goLen F.path) :
    DeleteNode [F, X] F.id = (⟨204, none⟩, [X]) := by
  have hsel : selectById [F, X] F.id = some F := by
    simp [selectById]
  unfold DeleteNode
  rw [hsel]
  simp only [hfolder, if_true, deleteLike_long [F, X] F.path hlong (by simp)]
  have : deleteById [F, X] F.id = [X] := by
    simp [deleteById, hid]
  rw [this]

theorem GetNode_single (X : Row) (h : X.path ≠ []) :
    GetNode [X] X.path = ⟨200, some (scanNode X)⟩ := by
  unfold GetNode
  rw [if_neg h]
  simp [selectByPath]

/-- C3 fails as stated: folder `longFolder` has a path of 49999 bytes and the
file `longChild` lies below it, in a store with unique ids and paths.  The
pattern of the cascade DELETE then has 50001 bytes, SQLite refuses it, the
handler only logs the error, deletes the folder row and answers 204; the
child is still in the store and `GetNode` on its path answers 200. -/
theorem delete_long_folder_keeps_child :
    longFolder ∈ [longFolder, longChild]
    ∧ longFolder.type = "folder".toList
    ∧ Unique [longFolder, longChild]
    ∧ longFolder.path ≠ []
    ∧ goLen longFolder.path = 49999
    ∧ Below longFolder.path longChild.path
    ∧ DeleteNode [longFolder, longChild] longFolder.id = (⟨204, none⟩, [longChild])
    ∧ GetNode (DeleteNode [longFolder, longChild] longFolder.id).2 longChild.path
        = ⟨200, some (scanNode longChild)⟩ := by
  have hne : longChild.path ≠ [] := by
    show longPath ++ "/x".toList ≠ []
    exact List.append_ne_nil_of_right_ne_nil _ (by decide)
  have hdel : DeleteNode [longFolder, longChild] longFolder.id
      = (⟨204, none⟩, [longChild]) :=
    DeleteNode_pair_long longFolder longChild (by decide) rfl
      (by show 49998 < goLen longPath; rw [goLen_longPath]; omega)
  refine ⟨List.mem_cons_self _ _, rfl, ⟨by decide, ?_⟩, ?_, goLen_longPath,
    ⟨"x".toList, ?_⟩, hdel, ?_⟩
  · show [longPath, longPath ++ "/x".toList].Nodup
    refine List.nodup_cons.mpr ⟨?_, List.nodup_singleton _⟩
    intro h
    have h2 : longPath = longPath ++ "/x".toList := List.mem_singleton.mp h
    have h3 := congrArg List.length h2
    rw [List.length_append] at h3
    have : ("/x".toList).length = 2 := rfl
    omega
  · show longPath ≠ []
    exact List.cons_ne_nil _ _
  · show longPath ++ "/".toList ++ "x".toList = longPath ++ "/x".toList
    rw [List.append_assoc]
    rfl
  · rw [hdel]
    exact GetNode_single longChild hne

/-! ## Daily notes: get or create -/

theorem dateToPath_ne_daily (d : Str) : dateToPath d ≠ "/daily".toList := by
  intro h
  have := congrArg List.length h
  simp [dateToPath] at this

theorem ensureDailyFolder_cases (db : Store) (id now : Str)
    (hid : selectByPath db "/daily".toList = none → ∀ r ∈ db, r.id ≠ id) :
    ensureDailyFolder db id now = some db
    ∨ (selectByPath db "/daily".toList = none
        ∧ ensureDailyFolder db id now = some (db ++ [dailyFolderRow id now])) := by
  unfold ensureDailyFolder
  cases h : selectByPath db "/daily".toList with
  | some r => exact Or.inl rfl
  | none =>
    right
    refine ⟨rfl, ?_⟩
    exact insertRow_fresh (r := dailyFolderRow id now) (hid h) (selectByPath_eq_none.mp h)

theorem selectDaily_eq_none_of_free {db : Store} {p : Str}
    (h : ∀ r ∈ db, r.path ≠ p) : selectDaily db p = none := by
  unfold selectDaily
  rw [List.find?_eq_none]
  intro r hr
  simp [h r hr]

theorem selectDaily_append_new {db : Store} {r : Row}
    (hfree : ∀ o ∈ db, o.path ≠ r.path) (hd : r.is_daily = true) :
    selectDaily (db ++ [r]) r.path = some r := by
  unfold selectDaily
  rw [List.find?_append]
  have h : List.find? (fun o => decide (o.path = r.path ∧ o.is_daily = true)) db = none := by
    rw [List.find?_eq_none]
    intro o ho
    simp [hfree o ho]
  rw [h]
  simp [hd]

theorem GetDailyFile_existing (db : Store) (d folderId folderNow id now : Str) (t : Date)
    (r : Row) (hd : parseDate d = some t) (hr : selectDaily db (dateToPath d) = some r) :
    GetDailyFile db d folderId folderNow id now = (⟨200, some (dailyOfRow d r)⟩, db) := by
  unfold GetDailyFile
  simp only [hd, hr]

theorem GetDailyFile_new (db : Store) (d folderId folderNow id now : Str) (t : Date)
    (hd : parseDate d = some t)
    (hfree : ∀ r ∈ db, r.path ≠ dateToPath d)
    (hid : ∀ r ∈ db, r.id ≠ id)
    (hfolder : selectByPath db "/daily".toList = none →
      (∀ r ∈ db, r.id ≠ folderId) ∧ folderId ≠ id) :
    ∃ db1 : Store, (db1 = db ∨ db1 = db ++ [dailyFolderRow folderId folderNow])
      ∧ GetDailyFile db d folderId folderNow id now
        = (⟨201, some
            { id := id, date := utf8Bytes d, name := d ++ ".md".toList,
              path := dateToPath d, content := dailyHeader t,
              created_at := some now, updated_at := some now }⟩,
           db1 ++ [dailyFileRow d (dailyHeader t) id now])
      ∧ ∀ r ∈ db1, r.path ≠ dateToPath d := by
  have hsel := selectDaily_eq_none_of_free hfree
  rcases ensureDailyFolder_cases db folderId folderNow (fun h => (hfolder h).1) with he | ⟨hn, he⟩
  · refine ⟨db, Or.inl rfl, ?_, hfree⟩
    have hins := insertRow_fresh (r := dailyFileRow d (dailyHeader t) id now) hid hfree
    unfold GetDailyFile
    simp only [hd, hsel, he]
    simp only [dailyFileRow] at hins
    simp only [hins, dailyFileRow]
  · have hfree1 : ∀ r ∈ db ++ [dailyFolderRow folderId folderNow], r.path ≠ dateToPath d := by
      intro r hr
      rcases List.mem_append.mp hr with h | h
      · exact hfree r h
      · rw [List.mem_singleton.mp h]
        exact fun h => dateToPath_ne_daily d h.symm
    have hid1 : ∀ r ∈ db ++ [dailyFolderRow folderId folderNow], r.id ≠ id := by
      intro r hr
      rcases List.mem_append.mp hr with h | h
      · exact hid r h
      · rw [List.mem_singleton.mp h]
        exact (hfolder hn).2
    refine ⟨_, Or.inr rfl, ?_, hfree1⟩
    have hins := insertRow_fresh (r := dailyFileRow d (dailyHeader t) id now) hid1 hfree1
    unfold GetDailyFile
    simp only [hd, hsel, he]
    simp only [dailyFileRow] at hins
    simp only [hins, dailyFileRow]

theorem digitChar_of_isDigit (c : Char) (h : isDigit c = true) :
    digitChar (c.toNat - 48) = c ∧ c.toNat - 48 < 10 := by
  simp only [isDigit, Bool.and_eq_true, decide_eq_true_eq] at h
  constructor
  · unfold digitChar
    have : 48 + (c.toNat - 48) = c.toNat := by omega
    rw [this]
    exact Char.ofNat_toNat c
  · omega

theorem monthName_eq_monthWord (a b : Nat) (ha : a < 10) (hb : b < 10)
    (h1 : 1 ≤ a * 10 + b) (h2 : a * 10 + b ≤ 12) :
    monthName (a * 10 + b) = monthWord (digitChar a) (digitChar b) := by
  interval_cases a <;> interval_cases b <;> first | omega | decide

theorem dayDigits_eq (a b : Nat) (ha : a < 10) (hb : b < 10) :
    (if a * 10 + b < 10 then [digitChar (a * 10 + b)]
      else [digitChar ((a * 10 + b) / 10), digitChar ((a * 10 + b) % 10)])
    = (if digitChar a = '0' then [digitChar b] else [digitChar a, digitChar b]) := by
  interval_cases a <;> interval_cases b <;> decide

theorem yearDigits_eq (a b c e : Nat) (hb : b < 10) (hc : c < 10) (he : e < 10) :
    [digitChar ((a * 1000 + b * 100 + c * 10 + e) / 1000),
     digitChar ((a * 1000 + b * 100 + c * 10 + e) / 100 % 10),
     digitChar ((a * 1000 + b * 100 + c * 10 + e) / 10 % 10),
     digitChar ((a * 1000 + b * 100 + c * 10 + e) % 10)]
    = [digitChar a, digitChar b, digitChar c, digitChar e] := by
  have h1 : (a * 1000 + b * 100 + c * 10 + e) / 1000 = a := by omega
  have h2 : (a * 1000 + b * 100 + c * 10 + e) / 100 % 10 = b := by omega
  have h3 : (a * 1000 + b * 100 + c * 10 + e) / 10 % 10 = c := by omega
  have h4 : (a * 1000 + b * 100 + c * 10 + e) % 10 = e := by omega
  rw [h1, h2, h3, h4]

/-- `Time.Format` of the parsed date is the long form read off the characters
of the date string. -/
theorem formatLong_eq_longDate (d : Str) (t : Date) (h : parseDate d = some t) :
    formatLong t = longDate d := by
  unfold parseDate at h
  split at h
  · rename_i y1 y2 y3 y4 s1 m1 m2 s2 d1 d2
    split at h
    · rename_i hdig
      simp only at h
      split at h
      · rename_i hrange
        simp only [List.all_cons, List.all_nil, Bool.and_true, Bool.and_eq_true,
          decide_eq_true_eq] at hdig
        obtain ⟨⟨⟨hy1, hy2, hy3, hy4, hm1, hm2, hd1, hd2⟩, _⟩, _⟩ := hdig
        obtain ⟨ey1, ly1⟩ := digitChar_of_isDigit y1 hy1
        obtain ⟨ey2, ly2⟩ := digitChar_of_isDigit y2 hy2
        obtain ⟨ey3, ly3⟩ := digitChar_of_isDigit y3 hy3
        obtain ⟨ey4, ly4⟩ := digitChar_of_isDigit y4 hy4
        obtain ⟨em1, lm1⟩ := digitChar_of_isDigit m1 hm1
        obtain ⟨em2, lm2⟩ := digitChar_of_isDigit m2 hm2
        obtain ⟨ed1, ld1⟩ := digitChar_of_isDigit d1 hd1
        obtain ⟨ed2, ld2⟩ := digitChar_of_isDigit d2 hd2
        cases h
        unfold formatLong longDate
        simp only
        rw [monthName_eq_monthWord _ _ lm1 lm2 hrange.1 hrange.2.1,
          dayDigits_eq _ _ ld1 ld2, yearDigits_eq _ _ _ _ ly2 ly3 ly4,
          ey1, ey2, ey3, ey4, em1, em2, ed1, ed2]
      · cases h
    · cases h
  · cases h

/-- C5: for a date `d` accepted by `time.Parse` and a store with no node at
`/daily/<d>.md`, `GetDailyFile` (with fresh generated ids) answers 201 with a
note of path `/daily/<d>.md`, name `<d>.md` and content `# `, the long form of
the date read off the characters of `d` (month name, day without leading
zero, comma, the four year digits) and two newlines; a second call on the
resulting store answers 200 with the same id, path and content and leaves the
store unchanged. -/
theorem daily_get_or_create (db : Store) (d folderId folderNow id now : Str) (t : Date)
    (hd : parseDate d = some t)
    (hfree : ∀ r ∈ db, r.path ≠ dateToPath d)
    (hid : ∀ r ∈ db, r.id ≠ id)
    (hfolder : selectByPath db "/daily".toList = none →
      (∀ r ∈ db, r.id ≠ folderId) ∧ folderId ≠ id) :
    (GetDailyFile db d folderId folderNow id now).1.status = 201
    ∧ ∃ n : DailyNote, (GetDailyFile db d folderId folderNow id now).1.body = some n
      ∧ n.path = "/daily/".toList ++ d ++ ".md".toList
      ∧ n.name = d ++ ".md".toList
      ∧ n.content = "# ".toList ++ longDate d ++ "\n\n".toList
      ∧ n.id = id
      ∧ ∀ folderId2 folderNow2 id2 now2 : Str,
          (GetDailyFile (GetDailyFile db d folderId folderNow id now).2 d
              folderId2 folderNow2 id2 now2).1.status = 200
          ∧ (GetDailyFile (GetDailyFile db d folderId folderNow id now).2 d
              folderId2 folderNow2 id2 now2).2
            = (GetDailyFile db d folderId folderNow id now).2
          ∧ ∃ m : DailyNote,
              (GetDailyFile (GetDailyFile db d folderId folderNow id now).2 d
                folderId2 folderNow2 id2 now2).1.body = some m
              ∧ m.id = n.id ∧ m.path = n.path ∧ m.content = n.content := by
  obtain ⟨db1, _, hres, hfree1⟩ :=
    GetDailyFile_new db d folderId folderNow id now t hd hfree hid hfolder
  rw [hres]
  refine ⟨rfl, _, rfl, rfl, rfl, ?_, rfl, ?_⟩
  · show dailyHeader t = "# ".toList ++ longDate d ++ "\n\n".toList
    unfold dailyHeader
    rw [formatLong_eq_longDate d t hd]
  intro folderId2 folderNow2 id2 now2
  have hsel : selectDaily (db1 ++ [dailyFileRow d (dailyHeader t) id now]) (dateToPath d)
      = some (dailyFileRow d (dailyHeader t) id now) :=
    selectDaily_append_new (r := dailyFileRow d (dailyHeader t) id now) hfree1 rfl
  rw [GetDailyFile_existing _ d folderId2 folderNow2 id2 now2 t _ hd hsel]
  exact ⟨rfl, rfl, _, rfl, rfl, rfl, rfl⟩

theorem daily_get_or_create_witness :
    (GetDailyFile [] "2024-03-05".toList "f".toList "t1".toList "n".toList "t2".toList).1
      = ⟨201, some
          { id := "n".toList, date := utf8Bytes "2024-03-05".toList,
            name := "2024-03-05.md".toList, path := "/daily/2024-03-05.md".toList,
            content := "# March 5, 2024\n\n".toList,
            created_at := some "t2".toList, updated_at := some "t2".toList }⟩
    ∧ longDate "2024-03-05".toList = "March 5, 2024".toList
    ∧ longDate "1999-12-31".toList = "December 31, 1999".toList
    ∧ longDate "0800-01-10".toList = "January 10, 0800".toList
    ∧ (GetDailyFile
        (GetDailyFile [] "2024-03-05".toList "f".toList "t1".toList "n".toList "t2".toList).2
        "2024-03-05".toList "g".toList "t3".toList "m".toList "t4".toList).1.status = 200 := by
  obtain ⟨_, n, _, _, _, _, _, h2⟩ :=
    daily_get_or_create [] "2024-03-05".toList "f".toList "t1".toList "n".toList "t2".toList
      ⟨2024, 3, 5⟩ (by decide) (by simp) (by simp) (fun _ => ⟨by simp, by decide⟩)
  exact ⟨by decide, by decide, by decide, by decide,
    (h2 "g".toList "t3".toList "m".toList "t4".toList).1⟩

/-! ## Daily notes: listing by year -/

theorem bytesLt_irrefl (a : List Nat) : bytesLt a a = false := by
  induction a with
  | nil => rfl
  | cons x a ih => simp [bytesLt, ih]

theorem bytesLt_asymm : ∀ (a b : List Nat), bytesLt a b = true → bytesLt b a = false
  | _, [], h => by simp [bytesLt] at h
  | [], _ :: _, _ => by simp [bytesLt]
  | x :: a, y :: b, h => by
    simp only [bytesLt, Bool.or_eq_true, Bool.and_eq_true, decide_eq_true_eq] at h
    simp only [bytesLt, Bool.or_eq_false_iff, Bool.and_eq_false_iff, decide_eq_false_iff_not]
    rcases h with h | ⟨h1, h2⟩
    · exact ⟨by omega, Or.inl (by omega)⟩
    · exact ⟨by omega, Or.inr (bytesLt_asymm a b h2)⟩

theorem bytesLt_total : ∀ (a b : List Nat), bytesLt a b = false → bytesLt b a = false → a = b
  | [], [], _, _ => rfl
  | [], _ :: _, h, _ => by simp [bytesLt] at h
  | _ :: _, [], _, h => by simp [bytesLt] at h
  | x :: a, y :: b, h1, h2 => by
    simp only [bytesLt, Bool.or_eq_false_iff, Bool.and_eq_false_iff,
      decide_eq_false_iff_not] at h1 h2
    have hxy : x = y := by omega
    subst hxy
    have ha : bytesLt a b = false := by
      rcases h1.2 with h | h
      · exact absurd rfl h
      · exact h
    have hb : bytesLt b a = false := by
      rcases h2.2 with h | h
      · exact absurd rfl h
      · exact h
    rw [bytesLt_total a b ha hb]

theorem bytesLt_negtrans : ∀ (a b c : List Nat),
    bytesLt a b = false → bytesLt b c = false → bytesLt a c = false
  | _, _, [], _, _ => by simp [bytesLt]
  | _, [], _ :: _, _, h => by simp [bytesLt] at h
  | [], _ :: _, _ :: _, h, _ => by simp [bytesLt] at h
  | x :: a, y :: b, z :: c, h1, h2 => by
    simp only [bytesLt, Bool.or_eq_false_iff, Bool.and_eq_false_iff,
      decide_eq_false_iff_not] at h1 h2 ⊢
    refine ⟨by omega, ?_⟩
    by_cases hxz : x = z
    · right
      have hxy : x = y := by omega
      have hyz : y = z := by omega
      have ha : bytesLt a b = false := by
        rcases h1.2 with h | h
        · exact absurd hxy h
        · exact h
      have hb : bytesLt b c = false := by
        rcases h2.2 with h | h
        · exact absurd hyz h
        · exact h
      exact bytesLt_negtrans a b c ha hb
    · exact Or.inl hxz

theorem sortSlice_perm {α : Type} (less : α → α → Bool) (l : List α) :
    (sortSlice less l).Perm l :=
  List.perm_insertionSort _ l

theorem sortSlice_sorted {α : Type} (key : α → List Nat) (l : List α) :
    (sortSlice (fun a b => bytesLt (key b) (key a)) l).Pairwise
      (fun a b => bytesLt (key a) (key b) = false) := by
  unfold sortSlice
  have htot : IsTotal α (fun a b => bytesLt (key a) (key b) = false) :=
    ⟨fun a b => by
      cases h : bytesLt (key a) (key b) with
      | false => exact Or.inl rfl
      | true => exact Or.inr (bytesLt_asymm _ _ h)⟩
  have htr : IsTrans α (fun a b => bytesLt (key a) (key b) = false) :=
    ⟨fun a b c h1 h2 => bytesLt_negtrans _ _ _ h1 h2⟩
  exact List.sorted_insertionSort (fun a b => bytesLt (key a) (key b) = false) l

theorem yearMapAppend_keys (m : List (List Nat × List DailyNote)) (y : List Nat)
    (n : DailyNote) :
    (yearMapAppend m y n).map Prod.fst
      = if y ∈ m.map Prod.fst then m.map Prod.fst else m.map Prod.fst ++ [y] := by
  induction m with
  | nil => simp [yearMapAppend]
  | cons e m ih =>
    obtain ⟨k, ns⟩ := e
    unfold yearMapAppend
    by_cases hk : k = y
    · simp [hk]
    · have hk2 : ¬ y = k := fun h => hk h.symm
      simp only [hk, if_false, List.map_cons, ih, List.mem_cons, hk2, false_or]
      split <;> simp

theorem yearMapAppend_nodup (m : List (List Nat × List DailyNote)) (y : List Nat)
    (n : DailyNote) (h : (m.map Prod.fst).Nodup) :
    ((yearMapAppend m y n).map Prod.fst).Nodup := by
  rw [yearMapAppend_keys]
  split
  · exact h
  · rename_i hy
    exact List.Nodup.append h (List.nodup_singleton y) (by simpa using hy)

theorem yearMapAppend_perm (m : List (List Nat × List DailyNote)) (y : List Nat)
    (n : DailyNote) :
    ((yearMapAppend m y n).flatMap Prod.snd).Perm (n :: m.flatMap Prod.snd) := by
  induction m with
  | nil => simp [yearMapAppend]
  | cons e m ih =>
    obtain ⟨k, ns⟩ := e
    unfold yearMapAppend
    by_cases hk : k = y
    · simp only [hk, if_true, List.flatMap_cons, List.append_assoc]
      have : (ns ++ ([n] ++ m.flatMap Prod.snd)).Perm (ns ++ (n :: m.flatMap Prod.snd)) := by
        simp
      refine this.trans ?_
      exact List.perm_middle
    · simp only [hk, if_false, List.flatMap_cons]
      refine (List.Perm.append_left ns ih).trans ?_
      exact List.perm_middle

theorem yearMapAppend_forall (P : List Nat → DailyNote → Prop)
    (m : List (List Nat × List DailyNote)) (y : List Nat) (n : DailyNote)
    (hm : ∀ e ∈ m, ∀ x ∈ e.2, P e.1 x) (hn : P y n) :
    ∀ e ∈ yearMapAppend m y n, ∀ x ∈ e.2, P e.1 x := by
  induction m with
  | nil =>
    intro e he x hx
    simp only [yearMapAppend, List.mem_singleton] at he
    subst he
    simp only [List.mem_singleton] at hx
    subst hx
    exact hn
  | cons e0 m ih =>
    obtain ⟨k, ns⟩ := e0
    intro e he x hx
    unfold yearMapAppend at he
    by_cases hk : k = y
    · simp only [hk, if_true, List.mem_cons] at he
      rcases he with he | he
      · subst he
        rcases List.mem_append.mp hx with h | h
        · have := hm (k, ns) (List.mem_cons_self _ _) x h
          simpa [hk] using this
        · simp only [List.mem_singleton] at h
          subst h
          exact hn
      · exact hm e (List.mem_cons_of_mem _ he) x hx
    · simp only [hk, if_false, List.mem_cons] at he
      rcases he with he | he
      · subst he
        exact hm (k, ns) (List.mem_cons_self _ _) x hx
      · exact ih (fun e he => hm e (List.mem_cons_of_mem _ he)) e he x hx

theorem listStep_fold (L : List Row) (m : List (List Nat × List DailyNote))
    (hk : (m.map Prod.fst).Nodup) (hP : ∀ e ∈ m, ∀ x ∈ e.2, Filed e.1 x) :
    ((L.foldl listStep m).map Prod.fst).Nodup
    ∧ (∀ e ∈ L.foldl listStep m, ∀ x ∈ e.2, Filed e.1 x)
    ∧ ((L.foldl listStep m).flatMap Prod.snd).Perm
        (m.flatMap Prod.snd
          ++ (L.filter (fun r => decide (20 ≤ goLen r.path))).map listNote) := by
  induction L generalizing m with
  | nil => exact ⟨hk, hP, by simp⟩
  | cons r L ih =>
    rw [List.foldl_cons]
    by_cases hlen : 20 ≤ goLen r.path
    · have hstep : listStep m r
          = yearMapAppend m (goSlice (goSlice (utf8Bytes r.path) 7 17) 0 4) (listNote r) := by
        unfold listStep
        rw [if_pos hlen]
        rfl
      have h := ih (listStep m r)
        (by rw [hstep]; exact yearMapAppend_nodup _ _ _ hk)
        (by rw [hstep]; exact yearMapAppend_forall Filed _ _ _ hP ⟨rfl, rfl, hlen⟩)
      refine ⟨h.1, h.2.1, h.2.2.trans ?_⟩
      rw [hstep, List.filter_cons, if_pos (by simpa using hlen), List.map_cons]
      refine (List.Perm.append_right _ (yearMapAppend_perm _ _ _)).trans ?_
      simp only [List.cons_append]
      exact List.perm_middle.symm
    · have hstep : listStep m r = m := by
        unfold listStep
        rw [if_neg hlen]
      rw [hstep]
      have h := ih m hk hP
      refine ⟨h.1, h.2.1, ?_⟩
      rw [List.filter_cons, if_neg (by simpa using hlen)]
      exact h.2.2

theorem listed_filter_perm (db : Store) :
    ((selectDailyFiles db).filter (fun r => decide (20 ≤ goLen r.path))).Perm
      (db.filter listed) := by
  unfold selectDailyFiles
  refine ((List.perm_insertionSort _ _).filter _).trans ?_
  rw [List.filter_filter]
  have : (fun r : Row => decide (20 ≤ goLen r.path)
      && (r.is_daily && decide (r.type = "file".toList))) = listed := by
    funext r
    simp only [listed]
    rw [Bool.and_comm]
  rw [this]

theorem yearMap_facts (db : Store) :
    (((selectDailyFiles db).foldl listStep []).map Prod.fst).Nodup
    ∧ (∀ e ∈ (selectDailyFiles db).foldl listStep [], ∀ x ∈ e.2, Filed e.1 x)
    ∧ (((selectDailyFiles db).foldl listStep []).flatMap Prod.snd).Perm
        ((db.filter listed).map listNote) := by
  have h := listStep_fold (selectDailyFiles db) [] (by simp) (by simp)
  refine ⟨h.1, h.2.1, ?_⟩
  refine h.2.2.trans ?_
  simp only [List.flatMap_nil, List.nil_append]
  exact (listed_filter_perm db).map listNote

theorem mem_ListDailyFiles {db : Store} {g : DailyYear} (hg : g ∈ ListDailyFiles db) :
    ∃ e ∈ (selectDailyFiles db).foldl listStep [],
      g.year = e.1 ∧ g.notes = sortSlice (fun a b => bytesLt b.date a.date) e.2 := by
  unfold ListDailyFiles at hg
  have hg2 := (sortSlice_perm _ _).mem_iff.mp hg
  obtain ⟨e, he, rfl⟩ := List.mem_map.mp hg2
  exact ⟨e, he, rfl, rfl⟩

theorem ListDailyFiles_years (db : Store) :
    ((ListDailyFiles db).map (fun g => g.year)).Perm
      (((selectDailyFiles db).foldl listStep []).map Prod.fst) := by
  unfold ListDailyFiles
  refine ((sortSlice_perm _ _).map _).trans ?_
  rw [List.map_map]
  exact List.Perm.refl _

theorem ListDailyFiles_notes (db : Store) :
    ((ListDailyFiles db).flatMap (fun g => g.notes)).Perm
      ((db.filter listed).map listNote) := by
  refine List.Perm.trans ?_ (yearMap_facts db).2.2
  unfold ListDailyFiles
  refine ((sortSlice_perm _ _).flatMap_right _).trans ?_
  generalize (selectDailyFiles db).foldl listStep [] = m
  induction m with
  | nil => simp
  | cons e m ih =>
    simp only [List.map_cons, List.flatMap_cons]
    exact List.Perm.append (sortSlice_perm _ _) ih

/-- C6: in the answer of `ListDailyFiles` the years are pairwise distinct and
strictly descending; a note is in the group of year `y` exactly when it comes
from a row with `is_daily`, type `file` and a path of at least 20 bytes whose
date (bytes 7..16 of the path) begins with `y`; all groups together hold each
such row exactly once; every group is ordered by date descending; and a row
whose path is shorter than 20 bytes is in no group. -/
theorem list_daily_files (db : Store) :
    ((ListDailyFiles db).map (fun g => g.year)).Nodup
    ∧ ((ListDailyFiles db).map (fun g => g.year)).Pairwise (fun a b => bytesLt b a = true)
    ∧ (∀ g ∈ ListDailyFiles db, ∀ n : DailyNote,
        n ∈ g.notes ↔
          ∃ r ∈ db, r.is_daily = true ∧ r.type = "file".toList ∧ 20 ≤ goLen r.path
            ∧ goSlice (goSlice (utf8Bytes r.path) 7 17) 0 4 = g.year ∧ n = listNote r)
    ∧ ((ListDailyFiles db).flatMap (fun g => g.notes)).Perm
        ((db.filter (fun r => r.is_daily && decide (r.type = "file".toList)
            && decide (20 ≤ goLen r.path))).map listNote)
    ∧ (∀ g ∈ ListDailyFiles db,
        g.notes.Pairwise (fun a b => bytesLt a.date b.date = false))
    ∧ (∀ r ∈ db, goLen r.path < 20 → ∀ g ∈ ListDailyFiles db, listNote r ∉ g.notes) := by
  obtain ⟨hk, hP, hperm⟩ := yearMap_facts db
  have hyears := ListDailyFiles_years db
  have hnodup : ((ListDailyFiles db).map (fun g => g.year)).Nodup :=
    hyears.nodup_iff.mpr hk
  have hfiled : ∀ g ∈ ListDailyFiles db, ∀ n ∈ g.notes, Filed g.year n := by
    intro g hg n hn
    obtain ⟨e, he, hy, hns⟩ := mem_ListDailyFiles hg
    rw [hns] at hn
    rw [hy]
    exact hP e he n ((sortSlice_perm _ _).mem_iff.mp hn)
  have hfrom : ∀ g ∈ ListDailyFiles db, ∀ n ∈ g.notes,
      ∃ r ∈ db, listed r = true ∧ n = listNote r := by
    intro g hg n hn
    have hmem : n ∈ (ListDailyFiles db).flatMap (fun g => g.notes) :=
      List.mem_flatMap.mpr ⟨g, hg, hn⟩
    have := (ListDailyFiles_notes db).mem_iff.mp hmem
    obtain ⟨r, hr, rfl⟩ := List.mem_map.mp this
    rw [List.mem_filter] at hr
    exact ⟨r, hr.1, hr.2, rfl⟩
  have hsorted : (ListDailyFiles db).Pairwise (fun a b => bytesLt a.year b.year = false) := by
    unfold ListDailyFiles
    exact sortSlice_sorted (fun g : DailyYear => g.year) _
  refine ⟨hnodup, ?_, ?_, ListDailyFiles_notes db, ?_, ?_⟩
  · rw [List.pairwise_map]
    have hne := hnodup
    unfold List.Nodup at hne
    rw [List.pairwise_map] at hne
    refine (hsorted.and hne).imp ?_
    intro a b h
    cases hb : bytesLt b.year a.year with
    | true => rfl
    | false => exact absurd (bytesLt_total _ _ h.1 hb) h.2
  · intro g hg n
    constructor
    · intro hn
      obtain ⟨r, hr, hl, rfl⟩ := hfrom g hg n hn
      have hf := hfiled g hg _ hn
      simp only [listed, Bool.and_eq_true, decide_eq_true_eq] at hl
      exact ⟨r, hr, hl.1.1, hl.1.2, hl.2, hf.1, rfl⟩
    · rintro ⟨r, hr, hd, ht, hl, hy, rfl⟩
      have hmem : listNote r ∈ (db.filter listed).map listNote :=
        List.mem_map.mpr ⟨r, List.mem_filter.mpr ⟨hr, by simp [listed, hd, ht, hl]⟩, rfl⟩
      have := (ListDailyFiles_notes db).mem_iff.mpr hmem
      obtain ⟨g2, hg2, hn2⟩ := List.mem_flatMap.mp this
      have hf := hfiled g2 hg2 _ hn2
      have hyy : g2.year = g.year := by
        rw [← hf.1, ← hy]
        rfl
      have hgg : g2 = g :=
        List.inj_on_of_nodup_map hnodup hg2 hg hyy
      rw [← hgg]
      exact hn2
  · intro g hg
    obtain ⟨e, _, _, hns⟩ := mem_ListDailyFiles hg
    rw [hns]
    exact sortSlice_sorted (fun x : DailyNote => x.date) _
  · intro r _ hlt g hg hn
    have hf := hfiled g hg _ hn
    have : 20 ≤ goLen r.path := hf.2.2
    omega

theorem list_daily_files_witness :
    ListDailyFiles
      [ { mkRow "1" "file" "2023-01-01.md" "/daily/2023-01-01.md" "/daily"
            with is_daily := true },
        { mkRow "2" "file" "2024-02-02.md" "/daily/2024-02-02.md" "/daily"
            with is_daily := true },
        { mkRow "3" "file" "2023-06-15.md" "/daily/2023-06-15.md" "/daily"
            with is_daily := true },
        { mkRow "4" "file" "x.md" "/daily/x.md" "/daily" with is_daily := true } ]
      = [ ⟨utf8Bytes "2024".toList,
            [listNote { mkRow "2" "file" "2024-02-02.md" "/daily/2024-02-02.md" "/daily"
              with is_daily := true }]⟩,
          ⟨utf8Bytes "2023".toList,
            [listNote { mkRow "3" "file" "2023-06-15.md" "/daily/2023-06-15.md" "/daily"
              with is_daily := true },
             listNote { mkRow "1" "file" "2023-01-01.md" "/daily/2023-01-01.md" "/daily"
              with is_daily := true }]⟩ ]
    ∧ ((ListDailyFiles
      [ { mkRow "1" "file" "2023-01-01.md" "/daily/2023-01-01.md" "/daily"
            with is_daily := true },
        { mkRow "2" "file" "2024-02-02.md" "/daily/2024-02-02.md" "/daily"
            with is_daily := true },
        { mkRow "3" "file" "2023-06-15.md" "/daily/2023-06-15.md" "/daily"
            with is_daily := true },
        { mkRow "4" "file" "x.md" "/daily/x.md" "/daily" with is_daily := true } ]).map
          (fun g => g.year)).Nodup :=
  ⟨by decide, (list_daily_files _).1⟩

/-! ## Row updates -/

theorem replaceFirst_append (old t new : Str) :
    replaceFirst (old ++ t) old new = new ++ t := by
  cases h : old ++ t with
  | nil =>
    have h1 : old = [] := (List.append_eq_nil.mp h).1
    have h2 : t = [] := (List.append_eq_nil.mp h).2
    simp [replaceFirst, h1, h2]
  | cons c u =>
    unfold replaceFirst
    have hp : old.isPrefixOf (c :: u) = true := by
      rw [← h, List.isPrefixOf_iff_prefix]
      exact List.prefix_append _ _
    rw [if_pos hp, ← h, List.drop_left]

theorem replaceFirst_self (s p : Str) : replaceFirst s p p = s := by
  induction s with
  | nil =>
    unfold replaceFirst
    split
    · rename_i h; exact h
    · rfl
  | cons c t ih =>
    unfold replaceFirst
    split
    · rename_i h
      rw [List.isPrefixOf_iff_prefix] at h
      obtain ⟨u, hu⟩ := h
      rw [← hu, List.drop_left]
    · rw [ih]

theorem selectById_some {db : Store} {id : Str} {r : Row} (h : selectById db id = some r) :
    r ∈ db ∧ r.id = id := by
  unfold selectById at h
  exact ⟨List.mem_of_find?_eq_some h, by simpa using List.find?_some h⟩

theorem eq_of_id_eq {db : Store} {r o : Row}
    (hids : (db.map (fun r => r.id)).Nodup) (hr : r ∈ db) (ho : o ∈ db)
    (h : r.id = o.id) : r = o :=
  List.inj_on_of_nodup_map hids hr ho h

theorem updateSetPath_ok {db : Store} {id : Str} {f : Row → Row}
    (h : ∀ r ∈ db, r.id = id → ∀ o ∈ db, o.id ≠ id → o.path ≠ (f r).path) :
    updateSetPath db id f = some (db.map (fun r => if r.id = id then f r else r)) := by
  unfold updateSetPath
  rw [if_neg]
  simp only [List.any_eq_true, Bool.and_eq_true, decide_eq_true_eq, not_exists, not_and]
  intro r hr hid o ho
  simp only [ne_eq, decide_not, Bool.not_eq_true', decide_eq_false_iff_not]
  exact fun hne => h r hr hid o ho hne

theorem updateSetPath_cases (db : Store) (id : Str) (f : Row → Row) :
    updateSetPath db id f = none
    ∨ ((∀ r ∈ db, r.id = id → ∀ o ∈ db, o.id ≠ id → o.path ≠ (f r).path)
        ∧ updateSetPath db id f = some (db.map (fun r => if r.id = id then f r else r))) := by
  by_cases h : ∀ r ∈ db, r.id = id → ∀ o ∈ db, o.id ≠ id → o.path ≠ (f r).path
  · exact Or.inr ⟨h, updateSetPath_ok h⟩
  · left
    unfold updateSetPath
    rw [if_pos]
    simp only [not_forall, not_not] at h
    obtain ⟨r, hr, hid, o, ho, hne, hp⟩ := h
    simp only [List.any_eq_true, Bool.and_eq_true, decide_eq_true_eq]
    exact ⟨r, hr, hid, o, ho, by simpa using hne, hp⟩

theorem map_update_ids (db : Store) (id : Str) (f : Row → Row) (hf : ∀ r, (f r).id = r.id) :
    (db.map (fun r => if r.id = id then f r else r)).map (fun r => r.id)
      = db.map (fun r => r.id) := by
  rw [List.map_map]
  apply List.map_congr_left
  intro r _
  simp only [Function.comp]
  split
  · exact hf r
  · rfl

theorem map_update_unique {db : Store} {id : Str} {f : Row → Row}
    (huniq : Unique db) (hf : ∀ r, (f r).id = r.id)
    (h : ∀ r ∈ db, r.id = id → ∀ o ∈ db, o.id ≠ id → o.path ≠ (f r).path) :
    Unique (db.map (fun r => if r.id = id then f r else r)) := by
  refine ⟨by rw [map_update_ids db id f hf]; exact huniq.1, ?_⟩
  rw [List.map_map]
  refine List.Nodup.map_on ?_ (List.Nodup.of_map _ huniq.1)
  intro x hx y hy hxy
  simp only [Function.comp] at hxy
  by_cases h1 : x.id = id <;> by_cases h2 : y.id = id
  · exact eq_of_id_eq huniq.1 hx hy (h1.trans h2.symm)
  · simp only [h1, h2, if_true, if_false] at hxy
    exact absurd hxy.symm (h x hx h1 y hy h2)
  · simp only [h1, h2, if_true, if_false] at hxy
    exact absurd hxy (h y hy h2 x hx h1)
  · simp only [h1, h2, if_false] at hxy
    exact eq_of_path_eq huniq.2 hx hy hxy

theorem updateSetPath_unique {db db2 : Store} {id : Str} {f : Row → Row}
    (huniq : Unique db) (hf : ∀ r, (f r).id = r.id)
    (h : updateSetPath db id f = some db2) : Unique db2 := by
  rcases updateSetPath_cases db id f with hn | ⟨hc, hs⟩
  · rw [hn] at h
    cases h
  · rw [hs] at h
    cases h
    exact map_update_unique huniq hf hc

theorem cascadeStep_eq (oldPath newPath now : Str) (db : Store) (child : Row) :
    cascadeStep JournalMode.wal oldPath newPath now db child
      = match updateSetPath db child.id (cascadedRow oldPath newPath now child) with
        | none => db
        | some db1 => db1 := rfl

theorem cascadeStep_rollback (oldPath newPath now : Str) (db : Store) (child : Row) :
    cascadeStep JournalMode.rollback oldPath newPath now db child = db := rfl

/-- On a rollback-journal file the cascade of a move changes nothing. -/
theorem cascade_rollback (oldPath newPath now : Str) (cs : List Row) (db : Store) :
    cs.foldl (cascadeStep JournalMode.rollback oldPath newPath now) db = db := by
  induction cs with
  | nil => rfl
  | cons c cs ih => rw [List.foldl_cons, cascadeStep_rollback, ih]

theorem cascadeStep_unique {m : JournalMode} {oldPath newPath now : Str} {db : Store}
    (child : Row) (huniq : Unique db) :
    Unique (cascadeStep m oldPath newPath now db child) := by
  cases m with
  | rollback => rw [cascadeStep_rollback]; exact huniq
  | wal =>
    rw [cascadeStep_eq]
    cases h : updateSetPath db child.id (cascadedRow oldPath newPath now child) with
    | none => exact huniq
    | some db1 =>
      exact updateSetPath_unique (f := cascadedRow oldPath newPath now child) huniq
        (fun _ => rfl) h

theorem cascade_unique {m : JournalMode} {oldPath newPath now : Str} (cs : List Row)
    {db : Store} (huniq : Unique db) :
    Unique (cs.foldl (cascadeStep m oldPath newPath now) db) := by
  induction cs generalizing db with
  | nil => exact huniq
  | cons c cs ih => exact ih (cascadeStep_unique c huniq)

/-! ## Move -/

theorem MoveNode_eq {db : Store} {id : Str} {cur : Row} (m : JournalMode)
    (req : MoveRequest) (now : Str) (h : selectById db id = some cur) :
    MoveNode m db id req now
      = if movePath cur req ≠ cur.path ∧ (selectByPath db (movePath cur req)).isSome then
          (⟨409, none⟩, db)
        else
          match updateSetPath db id (movedRow cur req now) with
          | none => (⟨500, none⟩, db)
          | some db1 =>
            (⟨200, (selectById (moveCascade m cur (movePath cur req) now db1) id).map
                scanNode⟩,
             moveCascade m cur (movePath cur req) now db1) := by
  unfold MoveNode
  simp only [h]
  rfl

theorem moveCascade_rollback (cur : Row) (newPath now : Str) (db1 : Store) :
    moveCascade JournalMode.rollback cur newPath now db1 = db1 := by
  unfold moveCascade
  split
  · split
    · rfl
    · exact cascade_rollback _ _ _ _ _
  · rfl

theorem moveCascade_unique (m : JournalMode) (cur : Row) (newPath now : Str) {db1 : Store}
    (huniq : Unique db1) : Unique (moveCascade m cur newPath now db1) := by
  unfold moveCascade
  split
  · split
    · exact huniq
    · exact cascade_unique _ huniq
  · exact huniq

theorem cascadedRow_noop (p now : Str) (c r : Row) :
    cascadedRow p p now c r
      = { r with path := c.path, parent_path := c.parent_path, updated := now } := by
  unfold cascadedRow
  rw [replaceFirst_self, replaceFirst_self]
  by_cases h : c.parent_path = p
  · simp [h]
  · simp [h]

theorem cascadeStep_noop (p now : Str) (db : Store) (huniq : Unique db) (c : Row)
    (hc : c ∈ db) (S : List Str) :
    cascadeStep JournalMode.wal p p now
        (db.map (fun r => if r.id ∈ S then touch now r else r)) c
      = db.map (fun r => if r.id ∈ c.id :: S then touch now r else r) := by
  rw [cascadeStep_eq]
  have hok : updateSetPath (db.map (fun r => if r.id ∈ S then touch now r else r)) c.id
      (cascadedRow p p now c)
      = some ((db.map (fun r => if r.id ∈ S then touch now r else r)).map
          (fun r => if r.id = c.id then cascadedRow p p now c r else r)) := by
    apply updateSetPath_ok
    intro r _ _ o ho hoid hop
    rw [cascadedRow_noop] at hop
    obtain ⟨o0, ho0, rfl⟩ := List.mem_map.mp ho
    have hp : o0.path = c.path := by
      by_cases h : o0.id ∈ S
      · simpa [h, touch] using hop
      · simpa [h] using hop
    have hid : o0.id = c.id := congrArg (fun x => x.id) (eq_of_path_eq huniq.2 ho0 hc hp)
    apply hoid
    by_cases h : o0.id ∈ S
    · simpa [h, touch] using hid
    · simpa [h] using hid
  rw [hok]
  simp only [List.map_map]
  apply List.map_congr_left
  intro r hr
  simp only [Function.comp, List.mem_cons]
  by_cases hid : r.id = c.id
  · have hrc : r = c := eq_of_id_eq huniq.1 hr hc hid
    subst hrc
    by_cases h : r.id ∈ S
    · simp [h, touch, cascadedRow_noop]
    · simp [h, touch, cascadedRow_noop]
  · by_cases h : r.id ∈ S
    · simp [h, hid, touch]
    · simp [h, hid]

theorem cascade_noop (p now : Str) (db : Store) (huniq : Unique db) (cs : List Row)
    (hcs : ∀ c ∈ cs, c ∈ db) (S : List Str) :
    cs.foldl (cascadeStep JournalMode.wal p p now)
        (db.map (fun r => if r.id ∈ S then touch now r else r))
      = db.map (fun r => if r.id ∈ cs.map (fun c => c.id) ++ S then touch now r else r) := by
  induction cs generalizing S with
  | nil => simp
  | cons c cs ih =>
    rw [List.foldl_cons, cascadeStep_noop p now db huniq c (hcs c (List.mem_cons_self _ _)) S,
      ih (fun x hx => hcs x (List.mem_cons_of_mem _ hx)) (c.id :: S)]
    apply List.map_congr_left
    intro r _
    have : (r.id ∈ cs.map (fun c => c.id) ++ c.id :: S)
        ↔ (r.id ∈ (c :: cs).map (fun c => c.id) ++ S) := by
      simp only [List.mem_append, List.mem_cons, List.map_cons]
      tauto
    simp only [this]

theorem cascade_noop_like (p pat now : Str) (db : Store) (huniq : Unique db) :
    (likeRows db pat).foldl (cascadeStep JournalMode.wal p p now) db
      = db.map (fun r => if sqlLike pat r.path = true then touch now r else r) := by
  have h := cascade_noop p now db huniq (likeRows db pat)
    (fun c hc => (List.mem_filter.mp hc).1) []
  have h0 : db.map (fun r => if r.id ∈ ([] : List Str) then touch now r else r) = db := by
    simp
  rw [h0] at h
  rw [h]
  apply List.map_congr_left
  intro r hr
  have : (r.id ∈ (likeRows db pat).map (fun c => c.id) ++ []) ↔ sqlLike pat r.path = true := by
    simp only [List.append_nil, List.mem_map, likeRows, List.mem_filter]
    constructor
    · rintro ⟨c, ⟨hc, hl⟩, hid⟩
      rw [← eq_of_id_eq huniq.1 hc hr hid]
      exact hl
    · intro hl
      exact ⟨r, ⟨hr, hl⟩, rfl⟩
  simp only [this]

theorem movedRow_noop_ok {db : Store} {N : Row} (req : MoveRequest) (now : Str)
    (hN : N ∈ db) (huniq : Unique db) (hnoop : movePath N req = N.path) :
    ∀ r ∈ db, r.id = N.id → ∀ o ∈ db, o.id ≠ N.id → o.path ≠ (movedRow N req now r).path := by
  intro r _ _ o ho hoid hop
  have hp : o.path = N.path := by
    rw [hop]
    exact hnoop
  exact hoid (congrArg (fun x => x.id) (eq_of_path_eq huniq.2 ho hN hp))

theorem MoveNode_after_update {db : Store} {N : Row} (m : JournalMode) (req : MoveRequest)
    (now : Str) (hN : N ∈ db) (huniq : Unique db)
    (hfree : movePath N req = N.path ∨ ∀ o ∈ db, o.path ≠ movePath N req) :
    MoveNode m db N.id req now
      = (⟨200, (selectById (moveCascade m N (movePath N req) now
            (db.map (fun r => if r.id = N.id then movedRow N req now N else r))) N.id).map
            scanNode⟩,
         moveCascade m N (movePath N req) now
           (db.map (fun r => if r.id = N.id then movedRow N req now N else r)))
    ∧ Unique (db.map (fun r => if r.id = N.id then movedRow N req now N else r)) := by
  have hsel := selectById_of_mem huniq.1 hN
  have hcond : ¬ (movePath N req ≠ N.path ∧ (selectByPath db (movePath N req)).isSome) := by
    rintro ⟨h1, h2⟩
    rcases hfree with h | h
    · exact h1 h
    · rw [selectByPath_eq_none.mpr h] at h2
      exact absurd h2 (by simp)
  have hchk : ∀ r ∈ db, r.id = N.id → ∀ o ∈ db, o.id ≠ N.id →
      o.path ≠ (movedRow N req now r).path := by
    intro r _ _ o ho hoid hop
    rcases hfree with h | h
    · exact hoid (congrArg (fun x => x.id) (eq_of_path_eq huniq.2 ho hN (hop.trans h)))
    · exact h o ho hop
  have hu1 := map_update_unique (f := movedRow N req now) huniq (fun _ => rfl) hchk
  have hmap : db.map (fun r => if r.id = N.id then movedRow N req now r else r)
      = db.map (fun r => if r.id = N.id then movedRow N req now N else r) := by
    apply List.map_congr_left
    intro r hr
    by_cases h : r.id = N.id
    · rw [if_pos h, if_pos h, eq_of_id_eq huniq.1 hr hN h]
    · rw [if_neg h, if_neg h]
  rw [MoveNode_eq m req now hsel, if_neg hcond, updateSetPath_ok hchk]
  simp only
  rw [hmap] at hu1 ⊢
  exact ⟨rfl, hu1⟩

theorem selectById_moved {db : Store} {N : Row} (hN : N ∈ db) (x : Row)
    (hx : x.id = N.id) :
    selectById (db.map (fun r => if r.id = N.id then x else r)) N.id = some x := by
  induction db with
  | nil => cases hN
  | cons a db ih =>
    unfold selectById at ih ⊢
    rw [List.map_cons, List.find?_cons]
    by_cases ha : a.id = N.id
    · simp [ha, hx]
    · have hN2 : N ∈ db := by
        rcases List.mem_cons.mp hN with h | h
        · exact absurd (h ▸ rfl) ha
        · exact h
      simp only [ha, if_false, decide_False]
      exact ih hN2

/-- On a rollback-journal file a move that succeeds rewrites the row of the
moved node and no other row. -/
theorem MoveNode_rollback_store (db : Store) (N : Row) (req : MoveRequest) (now : Str)
    (hN : N ∈ db) (huniq : Unique db)
    (hfree : movePath N req = N.path ∨ ∀ o ∈ db, o.path ≠ movePath N req) :
    MoveNode JournalMode.rollback db N.id req now
      = (⟨200, some (scanNode (movedRow N req now N))⟩,
         db.map (fun r => if r.id = N.id then movedRow N req now N else r)) := by
  rw [(MoveNode_after_update JournalMode.rollback req now hN huniq hfree).1,
    moveCascade_rollback, selectById_moved hN (movedRow N req now N) rfl]
  rfl

theorem moveCascade_noop_wal (N : Row) (now : Str) (db1 : Store) (huniq : Unique db1) :
    moveCascade JournalMode.wal N N.path now db1
      = db1.map (fun r =>
          if N.type = "folder".toList ∧ likeTooComplex (N.path ++ "/%".toList) = false
              ∧ sqlLike (N.path ++ "/%".toList) r.path = true then
            touch now r
          else r) := by
  unfold moveCascade
  by_cases hfolder : N.type = "folder".toList
  · rw [if_pos hfolder]
    unfold selectLike
    by_cases hc : likeTooComplex (N.path ++ "/%".toList) = true
    · cases db1 with
      | nil => simp [likeRows]
      | cons a t =>
        simp only [hc, List.isEmpty_cons, Bool.not_false, Bool.and_self, if_true]
        symm
        have : (fun r : Row =>
            if N.type = "folder".toList ∧ true = false
                ∧ sqlLike (N.path ++ "/%".toList) r.path = true then touch now r else r)
            = fun r => r := by
          funext r
          simp
        rw [this, List.map_id']
    · have hc2 : likeTooComplex (N.path ++ "/%".toList) = false := by
        cases h : likeTooComplex (N.path ++ "/%".toList) with
        | true => exact absurd h hc
        | false => rfl
      simp only [hc2, Bool.false_and, Bool.false_eq_true, if_false,
        cascade_noop_like _ _ _ _ huniq]
      apply List.map_congr_left
      intro r _
      simp only [hfolder, true_and]
  · rw [if_neg hfolder]
    symm
    have : (fun r : Row =>
        if N.type = "folder".toList ∧ likeTooComplex (N.path ++ "/%".toList) = false
            ∧ sqlLike (N.path ++ "/%".toList) r.path = true then touch now r else r)
        = fun r => r := by
      funext r
      rw [if_neg (fun h => hfolder h.1)]
    rw [this, List.map_id']

/-- On a write-ahead-log file a move that computes the path the node already
has also sets `updated` on every row the pattern of the cascade matches. -/
theorem MoveNode_noop_wal (db : Store) (N : Row) (req : MoveRequest) (now : Str)
    (hN : N ∈ db) (huniq : Unique db) (hnoop : movePath N req = N.path) :
    (MoveNode JournalMode.wal db N.id req now).2
      = db.map (fun r =>
          if r.id = N.id then movedRow N req now N
          else if N.type = "folder".toList
              ∧ likeTooComplex (N.path ++ "/%".toList) = false
              ∧ sqlLike (N.path ++ "/%".toList) r.path = true then
            touch now r
          else r) := by
  obtain ⟨hres, hu1⟩ := MoveNode_after_update JournalMode.wal req now hN huniq (Or.inl hnoop)
  rw [hres]
  simp only
  rw [hnoop, moveCascade_noop_wal N now _ hu1, List.map_map]
  apply List.map_congr_left
  intro r _
  simp only [Function.comp]
  by_cases hid : r.id = N.id
  · simp only [hid, if_true]
    split
    · rfl
    · rfl
  · simp only [hid, if_false]

/-- C4, as the code has it on the database file it creates (rollback
journal): a move whose computed path is the node's current path answers 200
and leaves every path unchanged; the moved node takes the requested name and
parent path (its own when the request leaves them empty) and the timestamp of
the move; every other row is unchanged in every column, so the `updated` of
every descendant is unchanged. -/
theorem move_noop (db : Store) (N : Row) (req : MoveRequest) (now : Str)
    (hN : N ∈ db) (huniq : Unique db) (hnoop : movePath N req = N.path) :
    (MoveNode JournalMode.rollback db N.id req now).1.status = 200
    ∧ (MoveNode JournalMode.rollback db N.id req now).2
      = db.map (fun r =>
          if r.id = N.id then
            { r with name := moveName N req, parent_path := moveParent N req, updated := now }
          else r)
    ∧ (MoveNode JournalMode.rollback db N.id req now).2.map (fun r => r.path)
        = db.map (fun r => r.path)
    ∧ (∀ r ∈ db, r.id ≠ N.id → r ∈ (MoveNode JournalMode.rollback db N.id req now).2)
    ∧ (∀ r ∈ (MoveNode JournalMode.rollback db N.id req now).2, r.id ≠ N.id → r ∈ db)
    ∧ (req.new_name = [] → req.new_parent_path = [] →
        (MoveNode JournalMode.rollback db N.id req now).2
          = db.map (fun r => if r.id = N.id then touch now r else r)) := by
  have hres := MoveNode_rollback_store db N req now hN huniq (Or.inl hnoop)
  have hstore : (MoveNode JournalMode.rollback db N.id req now).2
      = db.map (fun r =>
          if r.id = N.id then
            { r with name := moveName N req, parent_path := moveParent N req, updated := now }
          else r) := by
    rw [hres]
    apply List.map_congr_left
    intro r hr
    by_cases hid : r.id = N.id
    · have hrN : r = N := eq_of_id_eq huniq.1 hr hN hid
      subst hrN
      simp only [if_true, movedRow, hnoop]
    · simp only [hid, if_false]
  refine ⟨by rw [hres], hstore, ?_, ?_, ?_, ?_⟩
  · rw [hstore, List.map_map]
    apply List.map_congr_left
    intro r _
    simp only [Function.comp]
    split <;> rfl
  · intro r hr hid
    rw [hstore]
    exact List.mem_map.mpr ⟨r, hr, by rw [if_neg hid]⟩
  · intro r hr hid
    rw [hstore] at hr
    obtain ⟨r0, hr0, rfl⟩ := List.mem_map.mp hr
    by_cases h : r0.id = N.id
    · rw [if_pos h] at hid
      exact absurd h hid
    · rw [if_neg h]
      exact hr0
  · intro hn hp
    rw [hstore]
    apply List.map_congr_left
    intro r hr
    by_cases hid : r.id = N.id
    · have hrN : r = N := eq_of_id_eq huniq.1 hr hN hid
      subst hrN
      simp only [if_true, moveName, moveParent, hn, hp, touch]
    · simp only [hid, if_false]

theorem move_noop_witness :
    (MoveNode JournalMode.rollback
        [mkRow "1" "folder" "a" "/a" "/", mkRow "2" "file" "x" "/a/x" "/a",
         mkRow "3" "file" "y" "/y" "/"] "1".toList ⟨[], []⟩ "t1".toList).2
      = [touch "t1".toList (mkRow "1" "folder" "a" "/a" "/"),
         mkRow "2" "file" "x" "/a/x" "/a", mkRow "3" "file" "y" "/y" "/"]
    ∧ (MoveNode JournalMode.rollback
        [mkRow "1" "folder" "a" "/a" "/", mkRow "2" "file" "x" "/a/x" "/a",
         mkRow "3" "file" "y" "/y" "/"] "1".toList ⟨[], []⟩ "t1".toList).1.status = 200 :=
  ⟨by decide,
   (move_noop [mkRow "1" "folder" "a" "/a" "/", mkRow "2" "file" "x" "/a/x" "/a",
        mkRow "3" "file" "y" "/y" "/"] (mkRow "1" "folder" "a" "/a" "/") ⟨[], []⟩ "t1".toList
      (by decide) ⟨by decide, by decide⟩ (by decide)).1⟩

/-- C4 fails as stated: file `/a/b` (parent `/a`, name `b`) is moved with
parent `/` and name `a/b`.  The computed path is again `/a/b`, so the move is
a no-op move, but the row's name and parent path change, on either journal
mode (a file has no cascade). -/
theorem move_same_path_changes_name :
    movePath (mkRow "2" "file" "b" "/a/b" "/a") ⟨"/".toList, "a/b".toList⟩
      = (mkRow "2" "file" "b" "/a/b" "/a").path
    ∧ (MoveNode JournalMode.rollback
        [mkRow "1" "folder" "a" "/a" "/", mkRow "2" "file" "b" "/a/b" "/a"]
        "2".toList ⟨"/".toList, "a/b".toList⟩ "t1".toList).2
      = [ mkRow "1" "folder" "a" "/a" "/",
          { mkRow "2" "file" "a/b" "/a/b" "/" with updated := "t1".toList } ]
    ∧ (MoveNode JournalMode.wal
        [mkRow "1" "folder" "a" "/a" "/", mkRow "2" "file" "b" "/a/b" "/a"]
        "2".toList ⟨"/".toList, "a/b".toList⟩ "t1".toList).2
      = [ mkRow "1" "folder" "a" "/a" "/",
          { mkRow "2" "file" "a/b" "/a/b" "/" with updated := "t1".toList } ]
    ∧ (mkRow "2" "file" "b" "/a/b" "/a").parent_path ≠ "/".toList
    ∧ (mkRow "2" "file" "b" "/a/b" "/a").name ≠ "a/b".toList := by
  decide

/-- On a write-ahead-log file a no-op move of folder `/a` sets the `updated`
column of its descendant `/a/x`; on the rollback-journal file it does not. -/
theorem noop_move_descendant_by_mode :
    (MoveNode JournalMode.wal
        [mkRow "1" "folder" "a" "/a" "/", mkRow "2" "file" "x" "/a/x" "/a"]
        "1".toList ⟨[], []⟩ "t1".toList).2
      = [ touch "t1".toList (mkRow "1" "folder" "a" "/a" "/"),
          touch "t1".toList (mkRow "2" "file" "x" "/a/x" "/a") ]
    ∧ (MoveNode JournalMode.rollback
        [mkRow "1" "folder" "a" "/a" "/", mkRow "2" "file" "x" "/a/x" "/a"]
        "1".toList ⟨[], []⟩ "t1".toList).2
      = [ touch "t1".toList (mkRow "1" "folder" "a" "/a" "/"),
          mkRow "2" "file" "x" "/a/x" "/a" ] := by
  decide

/-! ## What each handler writes -/

theorem CreateNode_eq (db : Store) (req : FsNodeRequest) (id now : Str) :
    CreateNode db req id now
      = if req.type ≠ "folder".toList ∧ req.type ≠ "file".toList then (⟨400, none⟩, db)
        else if req.name = [] then (⟨400, none⟩, db)
        else if parentOrRoot req.parent_path ≠ "/".toList
            ∧ (selectFolder db (parentOrRoot req.parent_path)).isNone = true then
          (⟨400, none⟩, db)
        else if (selectByPath db (buildPath (parentOrRoot req.parent_path) req.name)).isSome
            = true then
          (⟨409, none⟩, db)
        else
          match insertRow db (createdRow req id now) with
          | none => (⟨500, none⟩, db)
          | some db1 =>
            (⟨201, some
              { id := id, type := req.type, name := req.name,
                path := buildPath (parentOrRoot req.parent_path) req.name,
                parent_path := parentOrRoot req.parent_path, content := req.content,
                is_daily := req.is_daily, sort_order := req.sort_order,
                created_at := some now, updated_at := some now }⟩, db1) := rfl

theorem CreateNode_shape (db : Store) (req : FsNodeRequest) (id now : Str) :
    (CreateNode db req id now).2 = db
    ∨ (req.name ≠ []
        ∧ (parentOrRoot req.parent_path = "/".toList
            ∨ (selectFolder db (parentOrRoot req.parent_path)).isSome = true)
        ∧ insertRow db (createdRow req id now) = some (CreateNode db req id now).2) := by
  rw [CreateNode_eq]
  by_cases h1 : req.type ≠ "folder".toList ∧ req.type ≠ "file".toList
  · rw [if_pos h1]; exact Or.inl rfl
  rw [if_neg h1]
  by_cases h2 : req.name = []
  · rw [if_pos h2]; exact Or.inl rfl
  rw [if_neg h2]
  by_cases h3 : parentOrRoot req.parent_path ≠ "/".toList
      ∧ (selectFolder db (parentOrRoot req.parent_path)).isNone = true
  · rw [if_pos h3]; exact Or.inl rfl
  rw [if_neg h3]
  by_cases h4 : (selectByPath db (buildPath (parentOrRoot req.parent_path) req.name)).isSome
      = true
  · rw [if_pos h4]; exact Or.inl rfl
  rw [if_neg h4]
  cases h5 : insertRow db (createdRow req id now) with
  | none => exact Or.inl rfl
  | some db1 =>
    refine Or.inr ⟨h2, ?_, rfl⟩
    by_cases hp : parentOrRoot req.parent_path = "/".toList
    · exact Or.inl hp
    · right
      cases hf : selectFolder db (parentOrRoot req.parent_path) with
      | none => exact absurd ⟨hp, by simp [hf]⟩ h3
      | some r => rfl

theorem UpdateNode_shape (db : Store) (id : Str) (req : FsNodeRequest) (now : Str) :
    (UpdateNode db id req now).2 = db
    ∨ ∃ cur : Row, selectById db id = some cur
        ∧ (UpdateNode db id req now).2
          = updateKeepPath db id (fun r =>
              { r with name := if req.name ≠ [] then req.name else cur.name,
                       content := if req.content ≠ [] ∨ cur.type = "file".toList
                                  then req.content else cur.content,
                       sort_order := req.sort_order, updated := now }) := by
  unfold UpdateNode
  split
  · exact Or.inl rfl
  · rename_i cur h
    exact Or.inr ⟨cur, h, rfl⟩

theorem MoveNode_shape (m : JournalMode) (db : Store) (id : Str) (req : MoveRequest)
    (now : Str) :
    (MoveNode m db id req now).2 = db
    ∨ ∃ (cur : Row) (db1 : Store), selectById db id = some cur
        ∧ updateSetPath db id (movedRow cur req now) = some db1
        ∧ (MoveNode m db id req now).2 = moveCascade m cur (movePath cur req) now db1 := by
  cases hsel : selectById db id with
  | none =>
    left
    unfold MoveNode
    simp only [hsel]
  | some cur =>
    rw [MoveNode_eq m req now hsel]
    split
    · exact Or.inl rfl
    · cases hup : updateSetPath db id (movedRow cur req now) with
      | none => exact Or.inl rfl
      | some db1 => exact Or.inr ⟨cur, db1, rfl, hup, rfl⟩

theorem DeleteNode_sublist (db : Store) (id : Str) : (DeleteNode db id).2.Sublist db := by
  unfold DeleteNode
  split
  · exact List.Sublist.refl _
  · simp only [deleteById, deleteLike]
    split
    · split
      · exact List.filter_sublist _
      · rename_i d h
        split at h
        · cases h
        · cases h
          exact (List.filter_sublist _).trans (List.filter_sublist _)
    · exact List.filter_sublist _

theorem DeleteDailyFile_sublist (db : Store) (d : Str) :
    (DeleteDailyFile db d).2.Sublist db := by
  unfold DeleteDailyFile
  split
  · exact List.Sublist.refl _
  · simp only
    split
    · exact List.Sublist.refl _
    · exact List.filter_sublist _

theorem ensureDailyFolder_shape {db db1 : Store} {id now : Str}
    (h : ensureDailyFolder db id now = some db1) :
    db1 = db ∨ insertRow db (dailyFolderRow id now) = some db1 := by
  unfold ensureDailyFolder at h
  split at h
  · left
    cases h
    rfl
  · exact Or.inr h

theorem GetDailyFile_shape (db : Store) (d folderId folderNow id now : Str) :
    ∃ db1 : Store,
      (db1 = db ∨ insertRow db (dailyFolderRow folderId folderNow) = some db1)
      ∧ ((GetDailyFile db d folderId folderNow id now).2 = db1
        ∨ ∃ t : Date, parseDate d = some t
            ∧ insertRow db1 (dailyFileRow d (dailyHeader t) id now)
              = some (GetDailyFile db d folderId folderNow id now).2) := by
  unfold GetDailyFile
  split
  · exact ⟨db, Or.inl rfl, Or.inl rfl⟩
  · rename_i t ht
    simp only
    split
    · exact ⟨db, Or.inl rfl, Or.inl rfl⟩
    · split
      · exact ⟨db, Or.inl rfl, Or.inl rfl⟩
      · rename_i db1 he
        refine ⟨db1, ensureDailyFolder_shape he, ?_⟩
        split
        · exact Or.inl rfl
        · rename_i db2 h2
          exact Or.inr ⟨t, ht, h2⟩

theorem UpdateDailyFile_shape (db : Store) (d reqContent folderId folderNow id now : Str) :
    ∃ db1 : Store,
      (db1 = db ∨ insertRow db (dailyFolderRow folderId folderNow) = some db1)
      ∧ ((UpdateDailyFile db d reqContent folderId folderNow id now).2 = db1
        ∨ (∃ content : Str, parseDate d ≠ none
            ∧ insertRow db1 (dailyFileRow d content id now)
              = some (UpdateDailyFile db d reqContent folderId folderNow id now).2)
        ∨ ∃ r : Row,
            (UpdateDailyFile db d reqContent folderId folderNow id now).2
              = updateKeepPath db r.id
                  (fun x => { x with content := reqContent, updated := now })) := by
  unfold UpdateDailyFile
  split
  · exact ⟨db, Or.inl rfl, Or.inl rfl⟩
  · rename_i t ht
    simp only
    split
    · split
      · exact ⟨db, Or.inl rfl, Or.inl rfl⟩
      · rename_i db1 he
        refine ⟨db1, ensureDailyFolder_shape he, ?_⟩
        split
        · exact Or.inl rfl
        · rename_i db2 h2
          exact Or.inr (Or.inl ⟨_, by simp [ht], h2⟩)
    · rename_i r hr
      refine ⟨db, Or.inl rfl, Or.inr (Or.inr ⟨r, ?_⟩)⟩
      split <;> rfl

/-! ## Unique ids and paths in every reachable store -/

theorem insertRow_some {db db2 : Store} {r : Row} (h : insertRow db r = some db2) :
    db2 = db ++ [r] ∧ (∀ o ∈ db, o.id ≠ r.id) ∧ (∀ o ∈ db, o.path ≠ r.path) := by
  unfold insertRow at h
  split at h
  · cases h
  · rename_i hn
    simp only [Bool.or_eq_true, List.any_eq_true, decide_eq_true_eq, not_or, not_exists,
      not_and] at hn
    cases h
    exact ⟨rfl, hn.1, hn.2⟩

theorem insertRow_held {db : Store} {r : Row} (h : ∃ o ∈ db, o.path = r.path) :
    insertRow db r = none := by
  unfold insertRow
  rw [if_pos]
  obtain ⟨o, ho, hp⟩ := h
  simp only [Bool.or_eq_true, List.any_eq_true, decide_eq_true_eq]
  exact Or.inr ⟨o, ho, hp⟩

theorem updateSetPath_held {db : Store} {id : Str} {f : Row → Row}
    (h : ∃ r ∈ db, r.id = id ∧ ∃ o ∈ db, o.id ≠ id ∧ o.path = (f r).path) :
    updateSetPath db id f = none := by
  rcases updateSetPath_cases db id f with hn | ⟨hc, _⟩
  · exact hn
  · obtain ⟨r, hr, hid, o, ho, hoid, hp⟩ := h
    exact absurd hp (hc r hr hid o ho hoid)

theorem insertRow_unique {db db2 : Store} {r : Row} (huniq : Unique db)
    (h : insertRow db r = some db2) : Unique db2 := by
  obtain ⟨rfl, hid, hpath⟩ := insertRow_some h
  constructor
  · rw [List.map_append]
    refine List.Nodup.append huniq.1 (List.nodup_singleton _) ?_
    simp only [List.map_cons, List.map_nil, List.disjoint_singleton, List.mem_map, not_exists,
      not_and]
    exact fun o ho => hid o ho
  · rw [List.map_append]
    refine List.Nodup.append huniq.2 (List.nodup_singleton _) ?_
    simp only [List.map_cons, List.map_nil, List.disjoint_singleton, List.mem_map, not_exists,
      not_and]
    exact fun o ho => hpath o ho

theorem updateKeepPath_unique {db : Store} (id : Str) {f : Row → Row} (huniq : Unique db)
    (hf : ∀ r, (f r).id = r.id ∧ (f r).path = r.path) :
    Unique (updateKeepPath db id f) := by
  unfold updateKeepPath
  constructor
  · rw [map_update_ids db id f (fun r => (hf r).1)]
    exact huniq.1
  · have : (db.map (fun r => if r.id = id then f r else r)).map (fun r => r.path)
        = db.map (fun r => r.path) := by
      rw [List.map_map]
      apply List.map_congr_left
      intro r _
      simp only [Function.comp]
      split
      · exact (hf r).2
      · rfl
    rw [this]
    exact huniq.2

theorem sublist_unique {db db2 : Store} (huniq : Unique db) (h : db2.Sublist db) :
    Unique db2 :=
  ⟨huniq.1.sublist (h.map _), huniq.2.sublist (h.map _)⟩

theorem Step_unique {m : JournalMode} {db db2 : Store} (huniq : Unique db)
    (h : Step m db db2) : Unique db2 := by
  cases h with
  | create req id now =>
    rcases CreateNode_shape db req id now with h | ⟨_, _, h⟩
    · rw [h]; exact huniq
    · exact insertRow_unique huniq h
  | update id req now =>
    rcases UpdateNode_shape db id req now with h | ⟨cur, _, h⟩
    · rw [h]; exact huniq
    · rw [h]
      exact updateKeepPath_unique id huniq (fun r => ⟨rfl, rfl⟩)
  | move id req now =>
    rcases MoveNode_shape m db id req now with h | ⟨cur, db1, _, hup, h⟩
    · rw [h]; exact huniq
    · have hu1 : Unique db1 :=
        updateSetPath_unique (f := movedRow cur req now) huniq (fun _ => rfl) hup
      rw [h]
      exact moveCascade_unique m cur _ now hu1
  | delete id => exact sublist_unique huniq (DeleteNode_sublist db id)
  | dailyGet d folderId folderNow id now =>
    obtain ⟨db1, h1, h2⟩ := GetDailyFile_shape db d folderId folderNow id now
    have hu1 : Unique db1 := by
      rcases h1 with h | h
      · rw [h]; exact huniq
      · exact insertRow_unique huniq h
    rcases h2 with h | ⟨t, _, h⟩
    · rw [h]; exact hu1
    · exact insertRow_unique hu1 h
  | dailyUpdate d reqContent folderId folderNow id now =>
    obtain ⟨db1, h1, h2⟩ := UpdateDailyFile_shape db d reqContent folderId folderNow id now
    have hu1 : Unique db1 := by
      rcases h1 with h | h
      · rw [h]; exact huniq
      · exact insertRow_unique huniq h
    rcases h2 with h | ⟨c, _, h⟩ | ⟨r, h⟩
    · rw [h]; exact hu1
    · exact insertRow_unique hu1 h
    · rw [h]
      exact updateKeepPath_unique r.id huniq (fun r => ⟨rfl, rfl⟩)
  | dailyDelete d => exact sublist_unique huniq (DeleteDailyFile_sublist db d)

theorem Reachable_unique {m : JournalMode} {db : Store} (h : Reachable m db) :
    Unique db := by
  induction h with
  | empty => exact ⟨List.nodup_nil, List.nodup_nil⟩
  | step _ hs ih => exact Step_unique ih hs

theorem CreateNode_held (db : Store) (req : FsNodeRequest) (id now : Str)
    (h : ∃ o ∈ db, o.path = buildPath (parentOrRoot req.parent_path) req.name) :
    (CreateNode db req id now).2 = db ∧ (CreateNode db req id now).1.body = none := by
  have hsel : (selectByPath db (buildPath (parentOrRoot req.parent_path) req.name)).isSome
      = true := by
    obtain ⟨r, hr, hp⟩ := h
    rw [Option.isSome_iff_ne_none]
    intro hnone
    exact selectByPath_eq_none.mp hnone r hr hp
  rw [CreateNode_eq]
  split
  · exact ⟨rfl, rfl⟩
  · split
    · exact ⟨rfl, rfl⟩
    · split
      · exact ⟨rfl, rfl⟩
      · exact ⟨rfl, rfl⟩

theorem MoveNode_held (m : JournalMode) (db : Store) (id : Str) (req : MoveRequest)
    (now : Str) (cur : Row)
    (hcur : selectById db id = some cur) (hne : movePath cur req ≠ cur.path)
    (h : ∃ o ∈ db, o.path = movePath cur req) :
    MoveNode m db id req now = (⟨409, none⟩, db) := by
  have hsel : (selectByPath db (movePath cur req)).isSome = true := by
    obtain ⟨r, hr, hp⟩ := h
    rw [Option.isSome_iff_ne_none]
    intro hnone
    exact selectByPath_eq_none.mp hnone r hr hp
  rw [MoveNode_eq m req now hcur, if_pos ⟨hne, hsel⟩]

theorem cascadeStep_held (m : JournalMode) (oldPath newPath now : Str) (db : Store)
    (child : Row)
    (h : ∃ r ∈ db, r.id = child.id
      ∧ ∃ o ∈ db, o.id ≠ child.id ∧ o.path = replaceFirst child.path oldPath newPath) :
    cascadeStep m oldPath newPath now db child = db := by
  cases m with
  | rollback => rfl
  | wal =>
    rw [cascadeStep_eq,
      updateSetPath_held (f := cascadedRow oldPath newPath now child) h]

theorem selectDaily_none_of_held {db : Store} {p : Str} (huniq : Unique db)
    (h : ∃ o ∈ db, o.path = p ∧ o.is_daily = false) : selectDaily db p = none := by
  obtain ⟨o, ho, hp, hd⟩ := h
  unfold selectDaily
  rw [List.find?_eq_none]
  intro r hr
  simp only [decide_eq_true_eq, not_and, Bool.not_eq_true]
  intro hrp
  rw [eq_of_path_eq huniq.2 hr ho (hrp.trans hp.symm)]
  exact hd

theorem ensureDailyFolder_some {db db1 : Store} {id now : Str}
    (h : ensureDailyFolder db id now = some db1) :
    db1 = db ∨ db1 = db ++ [dailyFolderRow id now] := by
  rcases ensureDailyFolder_shape h with h | h
  · exact Or.inl h
  · exact Or.inr (insertRow_some h).1

theorem GetDailyFile_held (db : Store) (d folderId folderNow id now : Str) (t : Date)
    (huniq : Unique db) (hd : parseDate d = some t)
    (h : ∃ o ∈ db, o.path = dateToPath d ∧ o.is_daily = false) :
    (GetDailyFile db d folderId folderNow id now).1 = ⟨500, none⟩
    ∧ ((GetDailyFile db d folderId folderNow id now).2 = db
      ∨ (GetDailyFile db d folderId folderNow id now).2
          = db ++ [dailyFolderRow folderId folderNow]) := by
  have hsel := selectDaily_none_of_held huniq h
  unfold GetDailyFile
  simp only [hd, hsel]
  cases he : ensureDailyFolder db folderId folderNow with
  | none => exact ⟨rfl, Or.inl rfl⟩
  | some db1 =>
    have hdb1 := ensureDailyFolder_some he
    have hheld : ∃ o ∈ db1, o.path = (dailyFileRow d (dailyHeader t) id now).path := by
      obtain ⟨o, ho, hp, _⟩ := h
      refine ⟨o, ?_, hp⟩
      rcases hdb1 with h1 | h1
      · rw [h1]; exact ho
      · rw [h1]; exact List.mem_append_left _ ho
    have hins := insertRow_held hheld
    simp only [dailyFileRow] at hins
    simp only [hins]
    exact ⟨trivial, hdb1⟩

theorem UpdateDailyFile_held (db : Store) (d reqContent folderId folderNow id now : Str)
    (t : Date) (huniq : Unique db) (hd : parseDate d = some t)
    (h : ∃ o ∈ db, o.path = dateToPath d ∧ o.is_daily = false) :
    (UpdateDailyFile db d reqContent folderId folderNow id now).1 = ⟨500, none⟩
    ∧ ((UpdateDailyFile db d reqContent folderId folderNow id now).2 = db
      ∨ (UpdateDailyFile db d reqContent folderId folderNow id now).2
          = db ++ [dailyFolderRow folderId folderNow]) := by
  have hsel := selectDaily_none_of_held huniq h
  unfold UpdateDailyFile
  simp only [hd, hsel]
  cases he : ensureDailyFolder db folderId folderNow with
  | none => exact ⟨rfl, Or.inl rfl⟩
  | some db1 =>
    have hdb1 := ensureDailyFolder_some he
    have hheld : ∃ o ∈ db1, o.path
        = (dailyFileRow d (if reqContent = [] then dailyHeader t else reqContent) id now).path := by
      obtain ⟨o, ho, hp, _⟩ := h
      refine ⟨o, ?_, hp⟩
      rcases hdb1 with h1 | h1
      · rw [h1]; exact ho
      · rw [h1]; exact List.mem_append_left _ ho
    have hins := insertRow_held hheld
    simp only [dailyFileRow] at hins
    simp only [hins]
    exact ⟨trivial, hdb1⟩

/-- C8: in every store reachable from the empty one, on a database file of
either journal mode, no two rows share a path,
and a write of a path that another row holds fails: the INSERT and the UPDATE
return an error and change nothing; `CreateNode` at a held path and
`MoveNode` to a held path answer without changing the store (409 for the
move); a turn of the cascade of `MoveNode` whose new path is held leaves the
store as it is; and `GetDailyFile` and `UpdateDailyFile` on a path held by a
non-daily node answer 500 without touching that node. -/
theorem path_unique (m : JournalMode) (db : Store) (h : Reachable m db) :
    (db.map (fun r => r.path)).Nodup
    ∧ (∀ r ∈ db, ∀ o ∈ db, r.path = o.path → r = o)
    ∧ (∀ r : Row, (∃ o ∈ db, o.path = r.path) → insertRow db r = none)
    ∧ (∀ (id : Str) (f : Row → Row),
        (∃ r ∈ db, r.id = id ∧ ∃ o ∈ db, o.id ≠ id ∧ o.path = (f r).path) →
        updateSetPath db id f = none)
    ∧ (∀ (req : FsNodeRequest) (id now : Str),
        (∃ o ∈ db, o.path = buildPath (parentOrRoot req.parent_path) req.name) →
        (CreateNode db req id now).2 = db ∧ (CreateNode db req id now).1.body = none)
    ∧ (∀ (id : Str) (req : MoveRequest) (now : Str) (cur : Row),
        selectById db id = some cur → movePath cur req ≠ cur.path →
        (∃ o ∈ db, o.path = movePath cur req) →
        MoveNode m db id req now = (⟨409, none⟩, db))
    ∧ (∀ (oldPath newPath now : Str) (child : Row),
        (∃ r ∈ db, r.id = child.id
          ∧ ∃ o ∈ db, o.id ≠ child.id ∧ o.path = replaceFirst child.path oldPath newPath) →
        cascadeStep m oldPath newPath now db child = db)
    ∧ (∀ (d folderId folderNow id now : Str) (t : Date), parseDate d = some t →
        (∃ o ∈ db, o.path = dateToPath d ∧ o.is_daily = false) →
        (GetDailyFile db d folderId folderNow id now).1 = ⟨500, none⟩
        ∧ ((GetDailyFile db d folderId folderNow id now).2 = db
          ∨ (GetDailyFile db d folderId folderNow id now).2
              = db ++ [dailyFolderRow folderId folderNow]))
    ∧ (∀ (d reqContent folderId folderNow id now : Str) (t : Date), parseDate d = some t →
        (∃ o ∈ db, o.path = dateToPath d ∧ o.is_daily = false) →
        (UpdateDailyFile db d reqContent folderId folderNow id now).1 = ⟨500, none⟩
        ∧ ((UpdateDailyFile db d reqContent folderId folderNow id now).2 = db
          ∨ (UpdateDailyFile db d reqContent folderId folderNow id now).2
              = db ++ [dailyFolderRow folderId folderNow])) := by
  have huniq := Reachable_unique h
  refine ⟨huniq.2, fun r hr o ho hp => eq_of_path_eq huniq.2 hr ho hp,
    fun r hr => insertRow_held hr, fun id f hf => updateSetPath_held hf,
    fun req id now hh => CreateNode_held db req id now hh,
    fun id req now cur hc hne hh => MoveNode_held m db id req now cur hc hne hh,
    fun oldPath newPath now child hh => cascadeStep_held m oldPath newPath now db child hh,
    fun d folderId folderNow id now t hd hh =>
      GetDailyFile_held db d folderId folderNow id now t huniq hd hh,
    fun d reqContent folderId folderNow id now t hd hh =>
      UpdateDailyFile_held db d reqContent folderId folderNow id now t huniq hd hh⟩

theorem path_unique_witness :
    ((CreateNode [] ⟨"file".toList, "x".toList, [], [], false, 0⟩ "1".toList "t0".toList).2.map
        (fun r => r.path)).Nodup
    ∧ (CreateNode
        (CreateNode [] ⟨"file".toList, "x".toList, [], [], false, 0⟩ "1".toList "t0".toList).2
        ⟨"folder".toList, "x".toList, [], [], false, 0⟩ "2".toList "t1".toList).2
      = (CreateNode [] ⟨"file".toList, "x".toList, [], [], false, 0⟩ "1".toList "t0".toList).2 :=
  ⟨(path_unique JournalMode.rollback _ (Reachable.step Reachable.empty
      (Step.create [] ⟨"file".toList, "x".toList, [], [], false, 0⟩
        "1".toList "t0".toList))).1,
   ((path_unique JournalMode.rollback _ (Reachable.step Reachable.empty
      (Step.create [] ⟨"file".toList, "x".toList, [], [], false, 0⟩
        "1".toList "t0".toList))).2.2.2.2.1
      ⟨"folder".toList, "x".toList, [], [], false, 0⟩ "2".toList "t1".toList
      ⟨mkRow "1" "file" "x" "/x" "/", by decide, by decide⟩).1⟩

/-! ## Moves that break the tree -/

theorem folderWithChild_reachable (m : JournalMode) : Reachable m folderWithChild :=
  Reachable.step (Reachable.step Reachable.empty (Step.create _ _ _ _)) (Step.create _ _ _ _)

theorem singleFile_reachable (m : JournalMode) : Reachable m singleFile :=
  Reachable.step Reachable.empty (Step.create _ _ _ _)

/-- C2 at a failing input, on the database file the program creates (rollback
journal): folder `/a` with child `/a/x` is renamed to `b`.  The move answers
200 and the folder row becomes `/b`; every UPDATE of the cascade is issued
while the cursor of the SELECT is open, is refused and its error dropped, so
the child keeps path `/a/x` and parent path `/a`: a node below the old path
remains and none sits at `/b/x`. -/
theorem move_leaves_child_behind :
    Reachable JournalMode.rollback folderWithChild
    ∧ folderWithChild = [mkRow "1" "folder" "a" "/a" "/", mkRow "2" "file" "x" "/a/x" "/a"]
    ∧ MoveNode JournalMode.rollback folderWithChild "1".toList ⟨[], "b".toList⟩ "t1".toList
      = (⟨200, some (scanNode
            { mkRow "1" "folder" "b" "/b" "/" with updated := "t1".toList })⟩,
         [ { mkRow "1" "folder" "b" "/b" "/" with updated := "t1".toList },
           mkRow "2" "file" "x" "/a/x" "/a" ])
    ∧ (∃ r ∈ (MoveNode JournalMode.rollback folderWithChild "1".toList
          ⟨[], "b".toList⟩ "t1".toList).2, Below "/a".toList r.path)
    ∧ ¬ ∃ r ∈ (MoveNode JournalMode.rollback folderWithChild "1".toList
          ⟨[], "b".toList⟩ "t1".toList).2, r.path = "/b".toList ++ "/x".toList :=
  ⟨folderWithChild_reachable _, by decide, by decide, by decide, by decide⟩

/-- On the rollback-journal file no folder move relocates a descendant: after
a move that succeeds every row other than the moved one is still in the store
as it was. -/
theorem rollback_move_keeps_rows (db : Store) (F : Row) (req : MoveRequest) (now : Str)
    (hF : F ∈ db) (huniq : Unique db)
    (hfree : movePath F req = F.path ∨ ∀ o ∈ db, o.path ≠ movePath F req)
    (r : Row) (hr : r ∈ db) (hid : r.id ≠ F.id) :
    r ∈ (MoveNode JournalMode.rollback db F.id req now).2 := by
  rw [MoveNode_rollback_store db F req now hF huniq hfree]
  exact List.mem_map.mpr ⟨r, hr, by rw [if_neg hid]⟩

/-- On a write-ahead-log file the cascade runs, and a folder moved into its
own subtree is rewritten by its own cascade: every row ends below the old
path `/a`. -/
theorem wal_move_into_own_subtree :
    (MoveNode JournalMode.wal folderWithChild "1".toList ⟨"/a".toList, []⟩ "t1".toList).2
      = [ { mkRow "1" "folder" "a" "/a/a/a" "/a/a" with updated := "t1".toList },
          { mkRow "2" "file" "x" "/a/a/x" "/a/a" with updated := "t1".toList } ] := by
  decide

/-- On a write-ahead-log file the UPDATE of a descendant whose new path is
already held fails and its error is discarded.  After file `/x` was moved
under the missing parent `/b`, renaming folder `/a` to `b` leaves its child
at `/a/x`. -/
theorem cascade_collision_keeps_descendant :
    (MoveNode JournalMode.wal
      [mkRow "1" "file" "x" "/b/x" "/b", mkRow "2" "folder" "a" "/a" "/",
       mkRow "3" "file" "x" "/a/x" "/a"]
      "2".toList ⟨[], "b".toList⟩ "t1".toList)
    = (⟨200, some (scanNode { mkRow "2" "folder" "b" "/b" "/" with updated := "t1".toList })⟩,
       [mkRow "1" "file" "x" "/b/x" "/b",
        { mkRow "2" "folder" "b" "/b" "/" with updated := "t1".toList },
        mkRow "3" "file" "x" "/a/x" "/a"]) := by
  decide

/-- On a write-ahead-log file the cascade reaches rows outside the moved
folder: `LIKE` folds ASCII case, so renaming folder `/a` to `b` selects `/A/a`
and the first occurrence of `/a` in it is replaced. -/
theorem cascade_rewrites_outside :
    (MoveNode JournalMode.wal
      [mkRow "1" "folder" "a" "/a" "/", mkRow "2" "folder" "A" "/A" "/",
       mkRow "3" "file" "a" "/A/a" "/A"]
      "1".toList ⟨[], "b".toList⟩ "t1".toList).2
    = [ { mkRow "1" "folder" "b" "/b" "/" with updated := "t1".toList },
        mkRow "2" "folder" "A" "/A" "/",
        { mkRow "3" "file" "a" "/A/b" "/A" with updated := "t1".toList } ] := by
  decide

/-- C10 at a failing input: file `/x` is moved with `new_parent_path =
"/nope"`.  `MoveNode` does not look the parent up; the resulting store is
reachable and holds a node whose parent path is neither `/` nor the path of a
folder.  A file has no cascade, so the journal mode plays no part. -/
theorem move_to_missing_parent (m : JournalMode) :
    Reachable m (MoveNode m singleFile "1".toList ⟨"/nope".toList, []⟩ "t1".toList).2
    ∧ (MoveNode m singleFile "1".toList ⟨"/nope".toList, []⟩ "t1".toList).1.status = 200
    ∧ ∃ r ∈ (MoveNode m singleFile "1".toList ⟨"/nope".toList, []⟩ "t1".toList).2,
        r.parent_path = "/nope".toList ∧ r.parent_path ≠ "/".toList
        ∧ ∀ o ∈ (MoveNode m singleFile "1".toList ⟨"/nope".toList, []⟩ "t1".toList).2,
            ¬ (o.path = r.parent_path ∧ o.type = "folder".toList) :=
  ⟨Reachable.step (singleFile_reachable m) (Step.move _ _ _ _),
   by cases m <;> decide, by cases m <;> decide⟩

/-! ## Path derivation -/

theorem buildPath_length (p n : Str) (hn : n ≠ []) : 2 ≤ (buildPath p n).length := by
  have : 1 ≤ n.length := List.length_pos.mpr hn
  unfold buildPath
  split
  · simp only [List.length_append, String.toList, String.length]
    simp; omega
  · simp only [List.length_append]
    simp; omega

theorem ne_root_of_length {p : Str} (h : 2 ≤ p.length) : p ≠ "/".toList := by
  intro hp
  rw [hp] at h
  simp at h

theorem cascadedRow_derived (old new now : Str) (c r : Row)
    (hold : 2 ≤ old.length) (hnew : 2 ≤ new.length) (hc : Derived c)
    (hin : c.parent_path = old ∨ Below old c.parent_path) (hname : r.name = c.name) :
    Derived (cascadedRow old new now c r) := by
  obtain ⟨t, ht⟩ : ∃ t, c.parent_path = old ++ t := by
    rcases hin with h | ⟨u, hu⟩
    · exact ⟨[], by simp [h]⟩
    · exact ⟨"/".toList ++ u, by rw [← hu, List.append_assoc]⟩
  have hpne : c.parent_path ≠ "/".toList := by
    apply ne_root_of_length
    rw [ht, List.length_append]
    omega
  have hpath : c.path = old ++ (t ++ '/' :: c.name) := by
    rw [hc.1, buildPath_of_ne_root _ _ hpne, ht, List.append_assoc]
  have hparent : (if c.parent_path = old then new
      else replaceFirst c.parent_path old new) = new ++ t := by
    split
    · rename_i h
      have : t = [] := by
        rw [ht] at h
        exact List.append_right_eq_self.mp h
      simp [this]
    · rw [ht, replaceFirst_append]
  have hnne : new ++ t ≠ "/".toList := by
    apply ne_root_of_length
    rw [List.length_append]
    omega
  constructor
  · show replaceFirst c.path old new
        = buildPath (if c.parent_path = old then new
            else replaceFirst c.parent_path old new) r.name
    rw [hparent, buildPath_of_ne_root _ _ hnne, hpath, replaceFirst_append, hname,
      List.append_assoc]
  · show r.name ≠ []
    rw [hname]
    exact hc.2

theorem forall_map_update {P : Row → Prop} {db : Store} {id : Str} {f : Row → Row}
    (h : ∀ r ∈ db, P r) (hf : ∀ r ∈ db, r.id = id → P (f r)) :
    ∀ r ∈ db.map (fun r => if r.id = id then f r else r), P r := by
  intro r hr
  obtain ⟨r0, hr0, rfl⟩ := List.mem_map.mp hr
  split
  · rename_i hid
    exact hf r0 hr0 hid
  · exact h r0 hr0

theorem forall_insertRow {P : Row → Prop} {db db2 : Store} {r : Row}
    (h : ∀ o ∈ db, P o) (hr : P r) (hins : insertRow db r = some db2) :
    ∀ o ∈ db2, P o := by
  obtain ⟨rfl, _, _⟩ := insertRow_some hins
  intro o ho
  rcases List.mem_append.mp ho with h1 | h1
  · exact h o h1
  · rw [List.mem_singleton.mp h1]
    exact hr

theorem cascade_derived (old new now : Str) (db1 : Store) (hu1 : Unique db1)
    (hold : 2 ≤ old.length) (hnew : 2 ≤ new.length) (cs : List Row)
    (hcs : ∀ c ∈ cs, c ∈ db1 ∧ Derived c ∧ (c.parent_path = old ∨ Below old c.parent_path))
    (db : Store) (hd : ∀ r ∈ db, Derived r)
    (hn : ∀ r ∈ db, ∃ r0 ∈ db1, r0.id = r.id ∧ r0.name = r.name) :
    ∀ r ∈ cs.foldl (cascadeStep JournalMode.wal old new now) db, Derived r := by
  induction cs generalizing db with
  | nil => exact hd
  | cons c cs ih =>
    rw [List.foldl_cons]
    have hc := hcs c (List.mem_cons_self _ _)
    apply ih (fun x hx => hcs x (List.mem_cons_of_mem _ hx))
    · rw [cascadeStep_eq]
      rcases updateSetPath_cases db c.id (cascadedRow old new now c) with h | ⟨_, h⟩
      · rw [h]; exact hd
      · rw [h]
        apply forall_map_update hd
        intro r hr hid
        obtain ⟨r0, hr0, hid0, hname0⟩ := hn r hr
        have : r0 = c := eq_of_id_eq hu1.1 hr0 hc.1 (hid0.trans hid)
        subst this
        exact cascadedRow_derived old new now r0 r hold hnew hc.2.1 hc.2.2 hname0.symm
    · rw [cascadeStep_eq]
      rcases updateSetPath_cases db c.id (cascadedRow old new now c) with h | ⟨_, h⟩
      · rw [h]; exact hn
      · rw [h]
        intro r hr
        obtain ⟨x, hx, rfl⟩ := List.mem_map.mp hr
        obtain ⟨r0, hr0, hid0, hname0⟩ := hn x hx
        refine ⟨r0, hr0, ?_⟩
        split
        · exact ⟨hid0, hname0⟩
        · exact ⟨hid0, hname0⟩

theorem dailyFolderRow_derived (id now : Str) : Derived (dailyFolderRow id now) := by
  constructor
  · show "/daily".toList = buildPath "/".toList "daily".toList
    decide
  · show "daily".toList ≠ []
    decide

theorem dailyFileRow_derived (d content id now : Str) :
    Derived (dailyFileRow d content id now) := by
  constructor
  · show dateToPath d = buildPath "/daily".toList (d ++ ".md".toList)
    rw [buildPath_of_ne_root _ _ (by decide)]
    simp [dateToPath]
  · show d ++ ".md".toList ≠ []
    simp

theorem NameKeepingStep_derived {m : JournalMode} {db db2 : Store} (huniq : Unique db)
    (hd : ∀ r ∈ db, Derived r) (h : NameKeepingStep m db db2) : ∀ r ∈ db2, Derived r := by
  cases h with
  | create req id now =>
    rcases CreateNode_shape db req id now with h | ⟨hname, _, h⟩
    · rw [h]; exact hd
    · exact forall_insertRow hd ⟨rfl, hname⟩ h
  | update id req now hname =>
    rcases UpdateNode_shape db id req now with h | ⟨cur, hcur, h⟩
    · rw [h]; exact hd
    · rw [h]
      unfold updateKeepPath
      apply forall_map_update hd
      intro r hr hid
      have hrc : r = cur :=
        eq_of_id_eq huniq.1 hr (selectById_some hcur).1 (hid.trans (selectById_some hcur).2.symm)
      subst hrc
      have hnm : (if req.name ≠ [] then req.name else r.name) = r.name := by
        rcases hname r hcur with h1 | h1
        · simp [h1]
        · simp [h1]
      have hr := hd r hr
      exact ⟨by show r.path = buildPath r.parent_path _; rw [hnm]; exact hr.1,
        by show (if req.name ≠ [] then req.name else r.name) ≠ []; rw [hnm]; exact hr.2⟩
  | move id req now hinside =>
    rcases MoveNode_shape m db id req now with h | ⟨cur, db1, hcur, hup, h⟩
    · rw [h]; exact hd
    · have hcurd := hd cur (selectById_some hcur).1
      have hmn : moveName cur req ≠ [] := by
        unfold moveName
        split
        · exact hcurd.2
        · assumption
      have hu1 : Unique db1 :=
        updateSetPath_unique (f := movedRow cur req now) huniq (fun _ => rfl) hup
      have hdb1 : db1 = db.map (fun r => if r.id = id then movedRow cur req now r else r) := by
        rcases updateSetPath_cases db id (movedRow cur req now) with h0 | ⟨_, h0⟩
        · rw [h0] at hup; cases hup
        · rw [h0] at hup
          cases hup
          rfl
      have hd1 : ∀ r ∈ db1, Derived r := by
        rw [hdb1]
        apply forall_map_update hd
        intro r _ _
        exact ⟨rfl, hmn⟩
      rw [h]
      cases m with
      | rollback =>
        rw [moveCascade_rollback]
        exact hd1
      | wal =>
        unfold moveCascade
        split
        · rename_i hfolder
          have hci := hinside rfl cur db1 hcur hfolder hup
          cases hrows : selectLike db1 (cur.path ++ "/%".toList) with
          | none => exact hd1
          | some rows =>
            simp only
            apply cascade_derived cur.path (movePath cur req) now db1 hu1
              (by rw [hcurd.1]; exact buildPath_length _ _ hcurd.2)
              (buildPath_length _ _ hmn) _ _ db1 hd1
              (fun r hr => ⟨r, hr, rfl, rfl⟩)
            intro c hc
            have hcm : c ∈ db1 := by
              unfold selectLike at hrows
              split at hrows
              · cases hrows
              · cases hrows
                exact (List.mem_filter.mp hc).1
            exact ⟨hcm, hd1 c hcm, hci rows hrows c hc⟩
        · exact hd1
  | delete id => exact fun r hr => hd r ((DeleteNode_sublist db id).subset hr)
  | dailyGet d folderId folderNow id now =>
    obtain ⟨db1, h1, h2⟩ := GetDailyFile_shape db d folderId folderNow id now
    have hd1 : ∀ r ∈ db1, Derived r := by
      rcases h1 with h | h
      · rw [h]; exact hd
      · exact forall_insertRow hd (dailyFolderRow_derived _ _) h
    rcases h2 with h | ⟨t, _, h⟩
    · rw [h]; exact hd1
    · exact forall_insertRow hd1 (dailyFileRow_derived _ _ _ _) h
  | dailyUpdate d reqContent folderId folderNow id now =>
    obtain ⟨db1, h1, h2⟩ := UpdateDailyFile_shape db d reqContent folderId folderNow id now
    have hd1 : ∀ r ∈ db1, Derived r := by
      rcases h1 with h | h
      · rw [h]; exact hd
      · exact forall_insertRow hd (dailyFolderRow_derived _ _) h
    rcases h2 with h | ⟨c, _, h⟩ | ⟨r, h⟩
    · rw [h]; exact hd1
    · exact forall_insertRow hd1 (dailyFileRow_derived _ _ _ _) h
    · rw [h]
      unfold updateKeepPath
      apply forall_map_update hd
      intro x hx _
      exact hd x hx
  | dailyDelete d => exact fun r hr => hd r ((DeleteDailyFile_sublist db d).subset hr)

theorem NameKeepingStep_step {m : JournalMode} {db db2 : Store}
    (h : NameKeepingStep m db db2) : Step m db db2 := by
  cases h with
  | create req id now => exact Step.create _ _ _ _
  | update id req now _ => exact Step.update _ _ _ _
  | move id req now _ => exact Step.move _ _ _ _
  | delete id => exact Step.delete _ _
  | dailyGet d folderId folderNow id now => exact Step.dailyGet _ _ _ _ _ _
  | dailyUpdate d c folderId folderNow id now => exact Step.dailyUpdate _ _ _ _ _ _ _
  | dailyDelete d => exact Step.dailyDelete _ _

theorem NameKeepingReachable_reachable {m : JournalMode} {db : Store}
    (h : NameKeepingReachable m db) : Reachable m db := by
  induction h with
  | empty => exact Reachable.empty
  | step _ hs ih => exact Reachable.step ih (NameKeepingStep_step hs)

/-- C9, as the code has it: in every store reachable from the empty one by
create, move, delete, the daily operations and updates whose request name is
empty or the stored name, every node has `path = buildPath(parent_path,
name)` and a non-empty name.  This holds on the rollback-journal file the
program creates, where the cascade of a move is refused, with no condition on
the moves; on a write-ahead-log file, where the cascade is applied, it holds
when the cascade of each folder move selects only rows whose parent path is
the old path of the folder or lies below it. -/
theorem path_derived (m : JournalMode) (db : Store) (h : NameKeepingReachable m db) :
    ∀ r ∈ db, r.path = buildPath r.parent_path r.name ∧ r.name ≠ [] := by
  induction h with
  | empty => exact fun r hr => absurd hr (List.not_mem_nil r)
  | step hreach hs ih =>
    exact NameKeepingStep_derived (Reachable_unique (NameKeepingReachable_reachable hreach))
      ih hs

theorem folderWithChild_nameKeeping (m : JournalMode) :
    NameKeepingReachable m folderWithChild :=
  NameKeepingReachable.step
    (NameKeepingReachable.step NameKeepingReachable.empty (NameKeepingStep.create _ _ _ _))
    (NameKeepingStep.create _ _ _ _)

theorem renamedFolder_nameKeeping :
    NameKeepingReachable JournalMode.rollback
      (MoveNode JournalMode.rollback folderWithChild "1".toList
        ⟨[], "b".toList⟩ "t1".toList).2 :=
  NameKeepingReachable.step (folderWithChild_nameKeeping _)
    (NameKeepingStep.move _ _ _ _ (fun h => by cases h))

theorem renamedFolder_nameKeeping_wal :
    NameKeepingReachable JournalMode.wal
      (MoveNode JournalMode.wal folderWithChild "1".toList
        ⟨[], "b".toList⟩ "t1".toList).2 := by
  refine NameKeepingReachable.step (folderWithChild_nameKeeping _)
    (NameKeepingStep.move _ _ _ _ ?_)
  intro _ cur db1 hcur _ hup
  have h1 : selectById folderWithChild "1".toList = some (mkRow "1" "folder" "a" "/a" "/") := by
    decide
  rw [h1] at hcur
  cases hcur
  have h2 : updateSetPath folderWithChild "1".toList
      (movedRow (mkRow "1" "folder" "a" "/a" "/") ⟨[], "b".toList⟩ "t1".toList)
      = some [ { mkRow "1" "folder" "b" "/b" "/" with updated := "t1".toList },
               mkRow "2" "file" "x" "/a/x" "/a" ] := by
    decide
  rw [h2] at hup
  cases hup
  intro rows hrows
  have h3 : selectLike [ { mkRow "1" "folder" "b" "/b" "/" with updated := "t1".toList },
               mkRow "2" "file" "x" "/a/x" "/a" ]
      ((mkRow "1" "folder" "a" "/a" "/").path ++ "/%".toList)
      = some [mkRow "2" "file" "x" "/a/x" "/a"] := by
    decide
  rw [h3] at hrows
  cases hrows
  decide

theorem path_derived_witness :
    (MoveNode JournalMode.rollback folderWithChild "1".toList
        ⟨[], "b".toList⟩ "t1".toList).2
      = [ { mkRow "1" "folder" "b" "/b" "/" with updated := "t1".toList },
          mkRow "2" "file" "x" "/a/x" "/a" ]
    ∧ (mkRow "2" "file" "x" "/a/x" "/a").path = buildPath "/a".toList "x".toList
    ∧ ({ mkRow "1" "folder" "b" "/b" "/" with updated := "t1".toList } : Row).path
        = buildPath "/".toList "b".toList :=
  ⟨by decide,
   (path_derived JournalMode.rollback _ renamedFolder_nameKeeping
      (mkRow "2" "file" "x" "/a/x" "/a") (by decide)).1,
   (path_derived JournalMode.rollback _ renamedFolder_nameKeeping
      { mkRow "1" "folder" "b" "/b" "/" with updated := "t1".toList } (by decide)).1⟩

/-- On a write-ahead-log file the same rename moves the child, and the
invariant holds there too. -/
theorem wal_rename_keeps_derivation :
    (MoveNode JournalMode.wal folderWithChild "1".toList ⟨[], "b".toList⟩ "t1".toList).2
      = [ { mkRow "1" "folder" "b" "/b" "/" with updated := "t1".toList },
          { mkRow "2" "file" "x" "/b/x" "/b" with updated := "t1".toList } ]
    ∧ ∀ r ∈ (MoveNode JournalMode.wal folderWithChild "1".toList
          ⟨[], "b".toList⟩ "t1".toList).2, Derived r :=
  ⟨by decide, by decide⟩

/-- C9 fails as stated: after creating file `x` in `/` and updating it with
name `y`, the store is reachable and its node has name `y`, parent path `/`
and path `/x`, which is not `buildPath("/", "y")`. -/
theorem update_breaks_derivation :
    Reachable JournalMode.rollback
      (UpdateNode singleFile "1".toList ⟨[], "y".toList, [], [], false, 0⟩ "t1".toList).2
    ∧ ∃ r ∈ (UpdateNode singleFile "1".toList
          ⟨[], "y".toList, [], [], false, 0⟩ "t1".toList).2,
        r.name = "y".toList ∧ r.parent_path = "/".toList ∧ r.path = "/x".toList
        ∧ r.path ≠ buildPath r.parent_path r.name :=
  ⟨Reachable.step (singleFile_reachable _) (Step.update _ _ _ _), by decide⟩

/-! ## Update -/

theorem selectById_map_update {db : Store} {N : Row} (hN : N ∈ db) (f : Row → Row)
    (hf : ∀ r, (f r).id = r.id) :
    selectById (db.map (fun r => if r.id = N.id then f r else r)) N.id = some (f N)
    ∨ ∃ o ∈ db, o.id = N.id ∧ o ≠ N := by
  induction db with
  | nil => cases hN
  | cons a db ih =>
    by_cases ha : a.id = N.id
    · by_cases haN : a = N
      · left
        subst haN
        unfold selectById
        simp [hf]
      · exact Or.inr ⟨a, List.mem_cons_self _ _, ha, haN⟩
    · have hN2 : N ∈ db := by
        rcases List.mem_cons.mp hN with h | h
        · exact absurd (h ▸ rfl) ha
        · exact h
      rcases ih hN2 with h | ⟨o, ho, h1, h2⟩
      · left
        unfold selectById at h ⊢
        rw [List.map_cons, List.find?_cons]
        simp only [ha, if_false, decide_False]
        exact h
      · exact Or.inr ⟨o, List.mem_cons_of_mem _ ho, h1, h2⟩

theorem selectById_map_update_unique {db : Store} {N : Row} (hN : N ∈ db)
    (hids : (db.map (fun r => r.id)).Nodup) (f : Row → Row) (hf : ∀ r, (f r).id = r.id) :
    selectById (db.map (fun r => if r.id = N.id then f r else r)) N.id = some (f N) := by
  rcases selectById_map_update hN f hf with h | ⟨o, ho, h1, h2⟩
  · exact h
  · exact absurd (eq_of_id_eq hids ho hN h1) h2

theorem map_update_eq_const {db : Store} {N : Row} (hN : N ∈ db)
    (hids : (db.map (fun r => r.id)).Nodup) (f : Row → Row) :
    db.map (fun r => if r.id = N.id then f r else r)
      = db.map (fun r => if r.id = N.id then f N else r) := by
  apply List.map_congr_left
  intro r hr
  by_cases h : r.id = N.id
  · rw [if_pos h, if_pos h, eq_of_id_eq hids hr hN h]
  · rw [if_neg h, if_neg h]

/-- C11: `UpdateNode` on an existing node `N` of a store with unique ids and
paths answers 200 with the updated node and rewrites the row of `N` alone:
its name is the request name when that is non-empty and the old name
otherwise; its content is the request content when that is non-empty or `N`
is a file, and the old content otherwise; its sort order is the request
value; id, type, path, parent path, daily flag and creation time are kept;
every other row is unchanged. -/
theorem update_node (db : Store) (N : Row) (req : FsNodeRequest) (now : Str)
    (hN : N ∈ db) (huniq : Unique db) :
    (UpdateNode db N.id req now).1 = ⟨200, some (scanNode (updatedRow N req now))⟩
    ∧ (UpdateNode db N.id req now).2
        = db.map (fun r => if r.id = N.id then updatedRow N req now else r)
    ∧ selectById (UpdateNode db N.id req now).2 N.id = some (updatedRow N req now)
    ∧ (updatedRow N req now).name = (if req.name ≠ [] then req.name else N.name)
    ∧ (updatedRow N req now).content
        = (if req.content ≠ [] ∨ N.type = "file".toList then req.content else N.content)
    ∧ (updatedRow N req now).sort_order = req.sort_order
    ∧ (updatedRow N req now).id = N.id ∧ (updatedRow N req now).type = N.type
    ∧ (updatedRow N req now).path = N.path
    ∧ (updatedRow N req now).parent_path = N.parent_path
    ∧ (updatedRow N req now).is_daily = N.is_daily
    ∧ (updatedRow N req now).created = N.created
    ∧ (∀ r ∈ db, r.id ≠ N.id → r ∈ (UpdateNode db N.id req now).2)
    ∧ (∀ r ∈ (UpdateNode db N.id req now).2, r.id ≠ N.id → r ∈ db) := by
  have hsel := selectById_of_mem huniq.1 hN
  have hstore : (UpdateNode db N.id req now).2
      = db.map (fun r => if r.id = N.id then updatedRow N req now else r) := by
    unfold UpdateNode
    simp only [hsel, updateKeepPath]
    exact map_update_eq_const hN huniq.1 _
  have hfind : selectById (db.map (fun r => if r.id = N.id then updatedRow N req now else r))
      N.id = some (updatedRow N req now) := by
    rcases selectById_map_update hN (fun r => updatedRow r req now) (fun _ => rfl) with h | h
    · rw [map_update_eq_const hN huniq.1] at h
      exact h
    · obtain ⟨o, ho, h1, h2⟩ := h
      exact absurd (eq_of_id_eq huniq.1 ho hN h1) h2
  refine ⟨?_, hstore, ?_, rfl, rfl, rfl, rfl, rfl, rfl, rfl, rfl, rfl, ?_, ?_⟩
  · have h2 : (UpdateNode db N.id req now).1
        = ⟨200, (selectById (UpdateNode db N.id req now).2 N.id).map scanNode⟩ := by
      unfold UpdateNode
      simp only [hsel]
    rw [h2, hstore, hfind]
    rfl
  · rw [hstore]
    exact hfind
  · intro r hr hid
    rw [hstore]
    exact List.mem_map.mpr ⟨r, hr, by rw [if_neg hid]⟩
  · intro r hr hid
    rw [hstore] at hr
    obtain ⟨r0, hr0, rfl⟩ := List.mem_map.mp hr
    by_cases h : r0.id = N.id
    · rw [if_pos h] at hid
      exact absurd rfl hid
    · rw [if_neg h]
      exact hr0

theorem update_node_witness :
    (UpdateNode [mkRow "1" "folder" "a" "/a" "/", mkRow "2" "file" "x" "/a/x" "/a"]
        "2".toList ⟨[], [], [], [], false, 7⟩ "t1".toList).2
      = [mkRow "1" "folder" "a" "/a" "/",
         { mkRow "2" "file" "x" "/a/x" "/a" with sort_order := 7, updated := "t1".toList }]
    ∧ (UpdateNode [mkRow "1" "folder" "a" "/a" "/", mkRow "2" "file" "x" "/a/x" "/a"]
        "1".toList ⟨[], "b".toList, [], [], false, 0⟩ "t1".toList).1
      = ⟨200, some (scanNode (updatedRow (mkRow "1" "folder" "a" "/a" "/")
          ⟨[], "b".toList, [], [], false, 0⟩ "t1".toList))⟩ :=
  ⟨by decide,
   (update_node [mkRow "1" "folder" "a" "/a" "/", mkRow "2" "file" "x" "/a/x" "/a"]
      (mkRow "1" "folder" "a" "/a" "/") ⟨[], "b".toList, [], [], false, 0⟩ "t1".toList
      (by decide) ⟨by decide, by decide⟩).1⟩

/-! ## Move onto a held path -/

/-- C12: when the path `MoveNode` computes for an existing node `N` (from
the requested parent and name, each defaulting to the node's own) differs
from the node's path and some row already holds it, the move answers 409 and
the store is left exactly as it was, in either journal mode of the database
file. -/
theorem move_conflict (m : JournalMode) (db : Store) (N : Row) (req : MoveRequest)
    (now : Str)
    (hN : N ∈ db) (huniq : Unique db)
    (hne : buildPath (if req.new_parent_path = [] then N.parent_path else req.new_parent_path)
        (if req.new_name = [] then N.name else req.new_name) ≠ N.path)
    (hheld : ∃ o ∈ db, o.path
      = buildPath (if req.new_parent_path = [] then N.parent_path else req.new_parent_path)
          (if req.new_name = [] then N.name else req.new_name)) :
    MoveNode m db N.id req now = (⟨409, none⟩, db) :=
  MoveNode_held m db N.id req now N (selectById_of_mem huniq.1 hN) hne hheld

theorem move_conflict_witness :
    MoveNode JournalMode.rollback [mkRow "1" "folder" "a" "/a" "/", mkRow "2" "file" "x" "/a/x" "/a",
        mkRow "3" "file" "b" "/b" "/"] "1".toList ⟨[], "b".toList⟩ "t1".toList
      = (⟨409, none⟩,
         [mkRow "1" "folder" "a" "/a" "/", mkRow "2" "file" "x" "/a/x" "/a",
          mkRow "3" "file" "b" "/b" "/"]) :=
  move_conflict JournalMode.rollback [mkRow "1" "folder" "a" "/a" "/", mkRow "2" "file" "x" "/a/x" "/a",
      mkRow "3" "file" "b" "/b" "/"] (mkRow "1" "folder" "a" "/a" "/") ⟨[], "b".toList⟩
    "t1".toList (by decide) ⟨by decide, by decide⟩ (by decide) (by decide)

/-! ## The node a move returns -/

theorem selectById_map_other {db : Store} {id cid : Str} (f : Row → Row)
    (hf : ∀ r, (f r).id = r.id) (hne : cid ≠ id) :
    selectById (db.map (fun r => if r.id = cid then f r else r)) id = selectById db id := by
  induction db with
  | nil => rfl
  | cons a db ih =>
    unfold selectById at ih ⊢
    rw [List.map_cons, List.find?_cons, List.find?_cons]
    by_cases ha : a.id = cid
    · have h1 : ¬ (f a).id = id := by
        rw [hf, ha]
        exact hne
      have h2 : ¬ a.id = id := by
        rw [ha]
        exact hne
      simp only [ha, if_true, h1, h2, hne, decide_False]
      exact ih
    · simp only [ha, if_false]
      by_cases hid : a.id = id
      · simp only [hid, decide_True]
      · simp only [hid, decide_False]
        exact ih

theorem selectById_cascadeStep (old new now : Str) (db : Store) (c : Row) (id : Str)
    (hne : c.id ≠ id) :
    selectById (cascadeStep JournalMode.wal old new now db c) id = selectById db id := by
  rw [cascadeStep_eq]
  rcases updateSetPath_cases db c.id (cascadedRow old new now c) with h | ⟨_, h⟩
  · rw [h]
  · rw [h]
    exact selectById_map_other (cascadedRow old new now c) (fun _ => rfl) hne

theorem selectById_cascade (old new now : Str) (cs : List Row) (db : Store) (id : Str)
    (hne : ∀ c ∈ cs, c.id ≠ id) :
    selectById (cs.foldl (cascadeStep JournalMode.wal old new now) db) id
      = selectById db id := by
  induction cs generalizing db with
  | nil => rfl
  | cons c cs ih =>
    rw [List.foldl_cons, ih _ (fun x hx => hne x (List.mem_cons_of_mem _ hx)),
      selectById_cascadeStep old new now db c id (hne c (List.mem_cons_self _ _))]

/-- On a write-ahead-log file a move that succeeds returns the node with the
requested name, parent path and the path built from them, when the node is
not a folder or the pattern of the cascade does not match the new path. -/
theorem MoveNode_result (db : Store) (N : Row) (req : MoveRequest) (now : Str)
    (hN : N ∈ db) (huniq : Unique db)
    (hfree : movePath N req = N.path ∨ ∀ o ∈ db, o.path ≠ movePath N req)
    (hout : N.type ≠ "folder".toList
      ∨ sqlLike (N.path ++ "/%".toList) (movePath N req) = false) :
    (MoveNode JournalMode.wal db N.id req now).1
      = ⟨200, some (scanNode (movedRow N req now N))⟩
    ∧ selectById (MoveNode JournalMode.wal db N.id req now).2 N.id
      = some (movedRow N req now N) := by
  have hfind := selectById_moved hN (movedRow N req now N) rfl
  have hu1 := (MoveNode_after_update JournalMode.wal req now hN huniq hfree).2
  have hkeep : selectById (moveCascade JournalMode.wal N (movePath N req) now
      (db.map (fun r => if r.id = N.id then movedRow N req now N else r))) N.id
      = some (movedRow N req now N) := by
    unfold moveCascade
    by_cases hfolder : N.type = "folder".toList
    · have hlike : sqlLike (N.path ++ "/%".toList) (movePath N req) = false := by
        rcases hout with h | h
        · exact absurd hfolder h
        · exact h
      rw [if_pos hfolder]
      cases hrows : selectLike (db.map (fun r => if r.id = N.id then movedRow N req now N
          else r)) (N.path ++ "/%".toList) with
      | none => exact hfind
      | some rows =>
        simp only
        have hne : ∀ c ∈ rows, c.id ≠ N.id := by
          intro c hc hid
          have hcf : c ∈ likeRows (db.map (fun r => if r.id = N.id then movedRow N req now N
              else r)) (N.path ++ "/%".toList) := by
            unfold selectLike at hrows
            split at hrows
            · cases hrows
            · cases hrows
              exact hc
          obtain ⟨hcm, hcl⟩ := List.mem_filter.mp hcf
          have hmem : movedRow N req now N ∈ db.map (fun r => if r.id = N.id
              then movedRow N req now N else r) :=
            List.mem_map.mpr ⟨N, hN, by rw [if_pos rfl]⟩
          have : c = movedRow N req now N := eq_of_id_eq hu1.1 hcm hmem hid
          rw [this] at hcl
          have hcl2 : sqlLike (N.path ++ "/%".toList) (movePath N req) = true := hcl
          rw [hlike] at hcl2
          exact absurd hcl2 (by simp)
        rw [selectById_cascade _ _ _ _ _ _ hne]
        exact hfind
    · rw [if_neg hfolder]
      exact hfind
  rw [(MoveNode_after_update JournalMode.wal req now hN huniq hfree).1]
  exact ⟨by rw [hkeep]; rfl, hkeep⟩

theorem nestedFolders_reachable (m : JournalMode) : Reachable m nestedFolders :=
  Reachable.step (Reachable.step Reachable.empty (Step.create _ _ _ _)) (Step.create _ _ _ _)

/-- A move of a node of the store that answers 200 found the computed path
either unchanged or free. -/
theorem MoveNode_ok_free (m : JournalMode) (db : Store) (N : Row) (req : MoveRequest)
    (now : Str) (hN : N ∈ db) (huniq : Unique db)
    (hok : (MoveNode m db N.id req now).1.status = 200) :
    movePath N req = N.path ∨ ∀ o ∈ db, o.path ≠ movePath N req := by
  by_cases hnoop : movePath N req = N.path
  · exact Or.inl hnoop
  · by_cases hheld : ∃ o ∈ db, o.path = movePath N req
    · rw [MoveNode_held m db N.id req now N (selectById_of_mem huniq.1 hN) hnoop hheld] at hok
      have h409 : (409 : Nat) ≠ 200 := by decide
      exact absurd hok h409
    · exact Or.inr (fun o ho hp => hheld ⟨o, ho, hp⟩)

/-- C13: on the database file the program creates, for every store with
unique ids and paths, every node `N` of it and every move of `N` that answers
200, with `n'` the requested name or else the old one and `p'` the requested
parent path or else the old one: the store afterwards holds exactly one row
with the id of `N`, that row has name `n'`, parent path `p'` and path
`buildPath p' n'` and keeps the type of `N`, and the response carries that
row.  There is no condition on the type of `N` or on where `p'` lies, so
this covers a folder moved into its own subtree. -/
theorem move_returns_node (db : Store) (N : Row) (req : MoveRequest) (now : Str)
    (hN : N ∈ db) (huniq : Unique db)
    (hok : (MoveNode JournalMode.rollback db N.id req now).1.status = 200) :
    ∃ r ∈ (MoveNode JournalMode.rollback db N.id req now).2,
      r.id = N.id
      ∧ (∀ o ∈ (MoveNode JournalMode.rollback db N.id req now).2, o.id = N.id → o = r)
      ∧ selectById (MoveNode JournalMode.rollback db N.id req now).2 N.id = some r
      ∧ r.name = (if req.new_name = [] then N.name else req.new_name)
      ∧ r.parent_path
          = (if req.new_parent_path = [] then N.parent_path else req.new_parent_path)
      ∧ r.path
          = buildPath (if req.new_parent_path = [] then N.parent_path else req.new_parent_path)
              (if req.new_name = [] then N.name else req.new_name)
      ∧ r.type = N.type
      ∧ (MoveNode JournalMode.rollback db N.id req now).1 = ⟨200, some (scanNode r)⟩ := by
  have hfree := MoveNode_ok_free JournalMode.rollback db N req now hN huniq hok
  have hu1 := (MoveNode_after_update JournalMode.rollback req now hN huniq hfree).2
  have hmem : movedRow N req now N ∈ db.map (fun r => if r.id = N.id
      then movedRow N req now N else r) :=
    List.mem_map.mpr ⟨N, hN, by rw [if_pos rfl]⟩
  rw [MoveNode_rollback_store db N req now hN huniq hfree]
  exact ⟨movedRow N req now N, hmem, rfl,
    fun o ho hid => eq_of_id_eq hu1.1 ho hmem hid,
    selectById_moved hN (movedRow N req now N) rfl, rfl, rfl, rfl, rfl, rfl⟩

theorem move_returns_node_witness :
    nestedFolders = [mkRow "1" "folder" "a" "/a" "/", mkRow "2" "folder" "b" "/a/b" "/a"]
    ∧ MoveNode JournalMode.rollback nestedFolders "1".toList ⟨"/a/b".toList, []⟩ "t1".toList
      = (⟨200, some (scanNode
            { mkRow "1" "folder" "a" "/a/b/a" "/a/b" with updated := "t1".toList })⟩,
         [ { mkRow "1" "folder" "a" "/a/b/a" "/a/b" with updated := "t1".toList },
           mkRow "2" "folder" "b" "/a/b" "/a" ])
    ∧ ∃ r ∈ (MoveNode JournalMode.rollback nestedFolders (mkRow "1" "folder" "a" "/a" "/").id
          ⟨"/a/b".toList, []⟩ "t1".toList).2,
      r.id = (mkRow "1" "folder" "a" "/a" "/").id
      ∧ (∀ o ∈ (MoveNode JournalMode.rollback nestedFolders
            (mkRow "1" "folder" "a" "/a" "/").id ⟨"/a/b".toList, []⟩ "t1".toList).2,
          o.id = (mkRow "1" "folder" "a" "/a" "/").id → o = r)
      ∧ selectById (MoveNode JournalMode.rollback nestedFolders
            (mkRow "1" "folder" "a" "/a" "/").id ⟨"/a/b".toList, []⟩ "t1".toList).2
          (mkRow "1" "folder" "a" "/a" "/").id = some r
      ∧ r.name = "a".toList
      ∧ r.parent_path = "/a/b".toList
      ∧ r.path = buildPath "/a/b".toList "a".toList
      ∧ r.type = "folder".toList
      ∧ (MoveNode JournalMode.rollback nestedFolders (mkRow "1" "folder" "a" "/a" "/").id
            ⟨"/a/b".toList, []⟩ "t1".toList).1 = ⟨200, some (scanNode r)⟩ :=
  ⟨by decide, by decide,
   move_returns_node nestedFolders (mkRow "1" "folder" "a" "/a" "/") ⟨"/a/b".toList, []⟩
     "t1".toList (by decide) ⟨by decide, by decide⟩ (by decide)⟩

/-- On a write-ahead-log file the cascade runs and selects the moved row
itself when folder `/a` is moved with `new_parent_path = "/a/b"`: the node
stored and returned then has parent `/a/b/a/b` and path `/a/b/a/b/a`. -/
theorem wal_move_into_descendant_rewritten :
    MoveNode JournalMode.wal nestedFolders "1".toList ⟨"/a/b".toList, []⟩ "t1".toList
      = (⟨200, some (scanNode
            { mkRow "1" "folder" "a" "/a/b/a/b/a" "/a/b/a/b" with updated := "t1".toList })⟩,
         [ { mkRow "1" "folder" "a" "/a/b/a/b/a" "/a/b/a/b" with updated := "t1".toList },
           { mkRow "2" "folder" "b" "/a/b/a/b" "/a/b/a" with updated := "t1".toList } ]) := by
  decide

/-! ## The daily folder -/

theorem ensureDailyFolder_new {db : Store} (id now : Str)
    (hnone : ∀ r ∈ db, r.path ≠ "/daily".toList) (hfresh : ∀ r ∈ db, r.id ≠ id) :
    ensureDailyFolder db id now = some (db ++ [dailyFolderRow id now]) := by
  unfold ensureDailyFolder
  rw [selectByPath_eq_none.mpr hnone]
  exact insertRow_fresh (r := dailyFolderRow id now) hfresh hnone

theorem selectDaily_eq_none {db : Store} {p : Str}
    (h : ∀ r ∈ db, ¬ (r.path = p ∧ r.is_daily = true)) : selectDaily db p = none := by
  unfold selectDaily
  rw [List.find?_eq_none]
  intro r hr
  simpa using h r hr

/-- C14, as the code has it: on a store with no node at `/daily` and no
daily note at `/daily/<d>.md`, for a valid date `d` and a fresh generated
folder id, `GetDailyFile` and `UpdateDailyFile` leave in the store a node with
path `/daily`, type `folder`, name `daily`, parent path `/` and `is_daily =
false`: the INSERT of `ensureDailyFolder` writes 0 in that column. -/
theorem daily_folder_created (db : Store) (d reqContent folderId folderNow id now : Str)
    (t : Date) (hd : parseDate d = some t)
    (hnone : ∀ r ∈ db, r.path ≠ "/daily".toList)
    (hnote : ∀ r ∈ db, ¬ (r.path = dateToPath d ∧ r.is_daily = true))
    (hfresh : ∀ r ∈ db, r.id ≠ folderId) :
    (∃ r ∈ (GetDailyFile db d folderId folderNow id now).2,
        r.path = "/daily".toList ∧ r.type = "folder".toList ∧ r.name = "daily".toList
        ∧ r.parent_path = "/".toList ∧ r.is_daily = false)
    ∧ (∃ r ∈ (UpdateDailyFile db d reqContent folderId folderNow id now).2,
        r.path = "/daily".toList ∧ r.type = "folder".toList ∧ r.name = "daily".toList
        ∧ r.parent_path = "/".toList ∧ r.is_daily = false)
    ∧ (∀ r ∈ (GetDailyFile db d folderId folderNow id now).2,
        r.path = "/daily".toList → r.is_daily = false)
    ∧ (∀ r ∈ (UpdateDailyFile db d reqContent folderId folderNow id now).2,
        r.path = "/daily".toList → r.is_daily = false) := by
  have hsel := selectDaily_eq_none hnote
  have hens := ensureDailyFolder_new folderId folderNow hnone hfresh
  have hget : (GetDailyFile db d folderId folderNow id now).2
        = db ++ [dailyFolderRow folderId folderNow]
      ∨ (GetDailyFile db d folderId folderNow id now).2
        = (db ++ [dailyFolderRow folderId folderNow])
            ++ [dailyFileRow d (dailyHeader t) id now] := by
    unfold GetDailyFile
    simp only [hd, hsel, hens]
    cases hins : insertRow (db ++ [dailyFolderRow folderId folderNow])
        (dailyFileRow d (dailyHeader t) id now) with
    | none =>
      left
      simp only [dailyFileRow] at hins
      simp only [hins]
    | some db2 =>
      right
      have := (insertRow_some hins).1
      simp only [dailyFileRow] at hins
      simp only [hins]
      exact this
  have hupd : (UpdateDailyFile db d reqContent folderId folderNow id now).2
        = db ++ [dailyFolderRow folderId folderNow]
      ∨ (UpdateDailyFile db d reqContent folderId folderNow id now).2
        = (db ++ [dailyFolderRow folderId folderNow])
            ++ [dailyFileRow d (if reqContent = [] then dailyHeader t else reqContent)
                  id now] := by
    unfold UpdateDailyFile
    simp only [hd, hsel, hens]
    cases hins : insertRow (db ++ [dailyFolderRow folderId folderNow])
        (dailyFileRow d (if reqContent = [] then dailyHeader t else reqContent) id now) with
    | none =>
      left
      simp only [dailyFileRow] at hins
      simp only [hins]
    | some db2 =>
      right
      have := (insertRow_some hins).1
      simp only [dailyFileRow] at hins
      simp only [hins]
      exact this
  have hrow : ∀ (c : Str) (r : Row),
      r ∈ (db ++ [dailyFolderRow folderId folderNow]) ++ [dailyFileRow d c id now] →
      r.path = "/daily".toList → r.is_daily = false := by
    intro c r hr hp
    rcases List.mem_append.mp hr with h | h
    · rcases List.mem_append.mp h with h1 | h1
      · exact absurd hp (hnone r h1)
      · rw [List.mem_singleton.mp h1]
        rfl
    · rw [List.mem_singleton.mp h] at hp
      exact absurd hp (dateToPath_ne_daily d)
  have hrow1 : ∀ r ∈ db ++ [dailyFolderRow folderId folderNow],
      r.path = "/daily".toList → r.is_daily = false := by
    intro r hr hp
    rcases List.mem_append.mp hr with h1 | h1
    · exact absurd hp (hnone r h1)
    · rw [List.mem_singleton.mp h1]
      rfl
  refine ⟨⟨dailyFolderRow folderId folderNow, ?_, rfl, rfl, rfl, rfl, rfl⟩,
    ⟨dailyFolderRow folderId folderNow, ?_, rfl, rfl, rfl, rfl, rfl⟩, ?_, ?_⟩
  · rcases hget with h | h
    · rw [h]; simp
    · rw [h]; simp
  · rcases hupd with h | h
    · rw [h]; simp
    · rw [h]; simp
  · rcases hget with h | h
    · rw [h]; exact hrow1
    · rw [h]; exact hrow _
  · rcases hupd with h | h
    · rw [h]; exact hrow1
    · rw [h]; exact hrow _

theorem daily_folder_created_witness :
    (GetDailyFile [] "2024-03-05".toList "f".toList "t1".toList "n".toList "t2".toList).2
      = [dailyFolderRow "f".toList "t1".toList,
         dailyFileRow "2024-03-05".toList "# March 5, 2024\n\n".toList "n".toList "t2".toList]
    ∧ ∃ r ∈ (GetDailyFile [] "2024-03-05".toList "f".toList "t1".toList
          "n".toList "t2".toList).2,
        r.path = "/daily".toList ∧ r.type = "folder".toList ∧ r.name = "daily".toList
        ∧ r.parent_path = "/".toList ∧ r.is_daily = false :=
  ⟨by decide,
   (daily_folder_created [] "2024-03-05".toList [] "f".toList "t1".toList "n".toList
      "t2".toList ⟨2024, 3, 5⟩ (by decide) (by simp) (by simp) (by simp)).1⟩

/-- C14 fails as stated: on the empty store, which has no node at `/daily`,
`GetDailyFile` and `UpdateDailyFile` for the valid date `2024-03-05` succeed
with 201, and afterwards no node with path `/daily` has `is_daily = true`. -/
theorem daily_folder_not_flagged :
    parseDate "2024-03-05".toList = some ⟨2024, 3, 5⟩
    ∧ selectByPath [] "/daily".toList = none
    ∧ (GetDailyFile [] "2024-03-05".toList "f".toList "t1".toList
        "n".toList "t2".toList).1.status = 201
    ∧ (¬ ∃ r ∈ (GetDailyFile [] "2024-03-05".toList "f".toList "t1".toList
          "n".toList "t2".toList).2,
        r.path = "/daily".toList ∧ r.is_daily = true)
    ∧ (UpdateDailyFile [] "2024-03-05".toList "hi".toList "f".toList "t1".toList
        "n".toList "t2".toList).1.status = 201
    ∧ ¬ ∃ r ∈ (UpdateDailyFile [] "2024-03-05".toList "hi".toList "f".toList "t1".toList
          "n".toList "t2".toList).2,
        r.path = "/daily".toList ∧ r.is_daily = true := by
  decide

/-! ## Replace-first is prefix substitution -/

/-- C15: for a string `p` that starts with `oldPath`, `strings.Replace(p,
oldPath, newPath, 1)` is `newPath` followed by `p` without its first
`len(oldPath)` characters, and byte for byte `newPath` followed by `p` without
its first `len(oldPath)` bytes, whatever follows the prefix; so every
descendant path `oldPath + "/" + s` becomes `newPath + "/" + s`; the rule of
the cascade for the parent path (exactly `newPath` when the parent path is
`oldPath`, replace-first otherwise) gives the same value, which is `newPath`
for `oldPath` itself. -/
theorem replace_first_is_prefix_subst (p oldPath newPath : Str)
    (hne : oldPath ≠ []) (hp : oldPath <+: p) :
    replaceFirst p oldPath newPath = prefixSubst p oldPath newPath
    ∧ utf8Bytes (replaceFirst p oldPath newPath)
        = utf8Bytes newPath ++ (utf8Bytes p).drop (goLen oldPath)
    ∧ (∀ s : Str, replaceFirst (oldPath ++ "/".toList ++ s) oldPath newPath
        = newPath ++ "/".toList ++ s)
    ∧ (if p = oldPath then newPath else replaceFirst p oldPath newPath)
        = prefixSubst p oldPath newPath
    ∧ prefixSubst oldPath oldPath newPath = newPath := by
  have _ := hne
  obtain ⟨t, rfl⟩ := hp
  have h1 : replaceFirst (oldPath ++ t) oldPath newPath
      = prefixSubst (oldPath ++ t) oldPath newPath := by
    rw [replaceFirst_append]
    unfold prefixSubst
    rw [List.drop_left]
  refine ⟨h1, ?_, ?_, ?_, ?_⟩
  · rw [replaceFirst_append, utf8Bytes_append, utf8Bytes_append]
    unfold goLen
    rw [List.drop_left]
  · intro s
    rw [List.append_assoc, replaceFirst_append, List.append_assoc]
  · split
    · rename_i h
      have ht : t = [] := List.append_right_eq_self.mp h
      subst ht
      unfold prefixSubst
      simp
    · exact h1
  · unfold prefixSubst
    simp

theorem replace_first_is_prefix_subst_witness :
    replaceFirst "/a/b/a/b/x".toList "/a/b".toList "/c".toList = "/c/a/b/x".toList
    ∧ replaceFirst "/a/b/a/b/x".toList "/a/b".toList "/c".toList
        = prefixSubst "/a/b/a/b/x".toList "/a/b".toList "/c".toList :=
  ⟨by decide,
   (replace_first_is_prefix_subst "/a/b/a/b/x".toList "/a/b".toList "/c".toList
      (by decide) ⟨"/a/b/x".toList, by decide⟩).1⟩

/-! ## What a delete leaves -/

/-- The store after `DeleteNode` on an existing node: the cascade removes the
rows matched by `LIKE path/%` when the node is a folder and the pattern is
within the length SQLite accepts, and the row itself goes. -/
theorem DeleteNode_store (db : Store) (N : Row) (hN : N ∈ db) (huniq : Unique db) :
    (DeleteNode db N.id).1.status = 204
    ∧ (DeleteNode db N.id).2
      = db.filter (fun r => decide (r.id ≠ N.id)
          && !(decide (N.type = "folder".toList)
                && !likeTooComplex (N.path ++ "/%".toList)
                && sqlLike (N.path ++ "/%".toList) r.path)) := by
  have hsel := selectById_of_mem huniq.1 hN
  have hdb : db ≠ [] := List.ne_nil_of_mem hN
  unfold DeleteNode
  simp only [hsel, deleteById]
  constructor
  · trivial
  · by_cases hfolder : N.type = "folder".toList
    · rw [if_pos hfolder]
      by_cases hlen : goLen N.path ≤ 49998
      · have hc : likeTooComplex (N.path ++ "/%".toList) = false := by
          unfold likeTooComplex
          rw [goLen_pattern]
          exact decide_eq_false (by omega)
        rw [deleteLike_ok db N.path hlen, hc]
        simp only [List.filter_filter]
        generalize "folder".toList = F at hfolder
        generalize N.path ++ "/%".toList = pat
        apply List.filter_congr
        intro r _
        simp [hfolder]
      · have hc : likeTooComplex (N.path ++ "/%".toList) = true := by
          unfold likeTooComplex
          rw [goLen_pattern]
          exact decide_eq_true (by omega)
        rw [deleteLike_long db N.path (by omega) hdb, hc]
        simp only
        generalize "folder".toList = F at hfolder
        generalize N.path ++ "/%".toList = pat
        apply List.filter_congr
        intro r _
        simp
    · rw [if_neg hfolder]
      generalize "folder".toList = F at hfolder
      generalize N.path ++ "/%".toList = pat
      apply List.filter_congr
      intro r _
      simp [hfolder]

/-- Deleting a node that is not a folder removes its row and no other. -/
theorem delete_file_frame (db : Store) (N : Row) (hN : N ∈ db) (huniq : Unique db)
    (hfile : N.type ≠ "folder".toList) :
    (DeleteNode db N.id).2 = db.filter (fun r => decide (r.id ≠ N.id)) := by
  rw [(DeleteNode_store db N hN huniq).2]
  apply List.filter_congr
  intro r _
  generalize "folder".toList = F at hfile
  simp [hfile]

/-- Deleting a folder keeps, unchanged, every other row whose path the
pattern `path/%` does not match. -/
theorem delete_keeps_unmatched (db : Store) (N : Row) (hN : N ∈ db) (huniq : Unique db)
    (r : Row) (hr : r ∈ db) (hid : r.id ≠ N.id)
    (hlike : sqlLike (N.path ++ "/%".toList) r.path = false) :
    r ∈ (DeleteNode db N.id).2 := by
  rw [(DeleteNode_store db N hN huniq).2, List.mem_filter]
  refine ⟨hr, ?_⟩
  rw [hlike]
  simp [hid]

theorem caseTwins_reachable (m : JournalMode) : Reachable m caseTwins :=
  Reachable.step
    (Reachable.step (Reachable.step Reachable.empty (Step.create _ _ _ _))
      (Step.create _ _ _ _))
    (Step.create _ _ _ _)

/-- C16 at a failing input: with folders `/a` and `/A` and file `/A/x` in
the store, deleting folder `/a` answers 204 and removes `/A/x`, a row with
another id whose path does not start with `/a/`: the pattern `/a/%` of the
cascade matches it because `LIKE` folds ASCII case. -/
theorem delete_removes_outside_subtree :
    (∀ m : JournalMode, Reachable m caseTwins)
    ∧ caseTwins = [mkRow "1" "folder" "a" "/a" "/", mkRow "2" "folder" "A" "/A" "/",
        mkRow "3" "file" "x" "/A/x" "/A"]
    ∧ DeleteNode caseTwins "1".toList = (⟨204, none⟩, [mkRow "2" "folder" "A" "/A" "/"])
    ∧ ∃ r ∈ caseTwins, r.id ≠ "1".toList ∧ ¬ Below "/a".toList r.path
        ∧ r ∉ (DeleteNode caseTwins "1".toList).2 :=
  ⟨caseTwins_reachable, by decide, by decide, by decide⟩

/-- The same over-matching through a wildcard: deleting folder `/_` removes
`/b/x`, because `_` in the pattern `/_/%` matches any character. -/
theorem delete_wildcard_removes_outside :
    (DeleteNode [mkRow "1" "folder" "_" "/_" "/", mkRow "2" "folder" "b" "/b" "/",
        mkRow "3" "file" "x" "/b/x" "/b"] "1".toList).2
      = [mkRow "2" "folder" "b" "/b" "/"] := by
  decide

end Basidian
